import Mathlib

/-!
Verification development for the gamesheet_core engine
(src/gamesheet_core/src/lib.rs).

The development is a shallow embedding of the engine:

* The Rhai scripting engine is an external collaborator.  It is modelled by
  the `Evaluator` structure: `compile` models `Engine::compile`,
  `extractDeps` models the `AST::walk` pass of `build_entry` that collects
  the literal first arguments of calls to the lookup function `g`,
  `merge` models `AST::merge`, and `run` models `Engine::eval_ast` as a
  deterministic function of the merged compiled unit.
* The `DashMap` fields of `Sheet` are modelled as association lists with
  unique-key insertion (`insertA`), first-match lookup (`lookupA`) and key
  removal (`eraseA`).  Iteration order of a `DashMap` is unspecified; the
  model fixes it to list order.
* In-place mutation is modelled by explicit state passing: operations that
  mutate the sheet return a `(result, new sheet)` pair, so partially applied
  mutations that precede an error are faithfully retained.
* The one `expect` (panic) reachable in `eval` when `prelude_ast` is `None`
  is modelled by an `Option` result: `none` is the panic.
-/

namespace Gamesheet

/-- First-match association list lookup (models `DashMap::get`). -/
def lookupA {α : Type} : List (String × α) → String → Option α
  | [], _ => none
  | (k, v) :: rest, key => if k = key then some v else lookupA rest key

/-- Association list insert-or-replace (models `DashMap::insert`):
replaces the first binding of the key in place, else appends. -/
def insertA {α : Type} : List (String × α) → String → α → List (String × α)
  | [], key, v => [(key, v)]
  | (k, w) :: rest, key, v =>
    if k = key then (key, v) :: rest else (k, w) :: insertA rest key v

/-- Association list key removal (models `DashMap::remove`). -/
def eraseA {α : Type} (l : List (String × α)) (key : String) : List (String × α) :=
  l.filter (fun p => p.1 ≠ key)

/-- The error type of the engine (`SheetError` in lib.rs).  The payloads of
`BadYaml` (a `serde_yaml::Error`) are external and carry no information used
by the engine, so `BadYaml` is modelled without a payload; the parse-error,
eval-error and value payloads are the type parameters `PE`, `EE`, `V`. -/
inductive SheetError (PE EE V : Type) where
  | BadYaml
  | BadScript (err : PE)
  | CyclicDependency (name : String)
  | BadDependency (name : String)
  | UnexpectedResult (value : V)
  | EvalFailure (err : EE)
deriving DecidableEq

/-- The external expression evaluator (the Rhai engine), specified at its
boundary: compile script text, statically extract the literal-string
arguments of calls to the designated lookup function `g`, merge a prelude
unit ahead of an entry unit, and execute a merged unit. -/
structure Evaluator (A V PE EE : Type) where
  compile : String → Except PE A
  extractDeps : A → List String
  merge : A → A → A
  run : A → Except EE V

/-- The engine state (struct `Sheet` in lib.rs).  `A` is the compiled-unit
(AST) type and `V` the dynamic value type of the evaluator. -/
structure Sheet (A V : Type) where
  prelude : String
  prelude_ast : Option A
  entries : List (String × String)
  asts : List (String × A)
  deps : List (String × List String)
  cache : List (String × V)
deriving DecidableEq

/-- The structural content of the serialized definition format: the
non-skipped fields of `Sheet` (`prelude` and `entries`). -/
structure SheetDoc where
  prelude : String
  entries : List (String × String)
deriving DecidableEq

variable {A V PE EE : Type}

/-- The keys of the dependency map. -/
def depKeys (deps : List (String × List String)) : List String :=
  deps.map Prod.fst

/-- All names occurring in dependency lists of the dependency map. -/
def depValues (deps : List (String × List String)) : List String :=
  deps.flatMap Prod.snd

/-- `GameSheet::dependencies` for a single sheet:
`deps.get(name).map_or_else(Vec::new, clone)`. -/
def dependenciesOf (deps : List (String × List String)) (name : String) : List String :=
  (lookupA deps name).getD []

/-- The direct dependents of `name`: the keys of the dependency-map pairs
whose dependency list contains `name` (the filter in
`Sheet::invalidate_cache`). -/
def dependentsOf (deps : List (String × List String)) (name : String) : List String :=
  (deps.filter (fun p => name ∈ p.2)).map Prod.fst

theorem lookupA_mem {α : Type} {l : List (String × α)} {k : String} {v : α}
    (h : lookupA l k = some v) : (k, v) ∈ l := by
  induction l with
  | nil => simp [lookupA] at h
  | cons p rest ih =>
    obtain ⟨k0, v0⟩ := p
    by_cases hk : k0 = k
    · subst hk
      simp [lookupA] at h
      simp [h]
    · simp [lookupA, hk] at h
      exact List.mem_cons_of_mem _ (ih h)

theorem dependentsOf_sub_keys (deps : List (String × List String)) (name : String) :
    ∀ d ∈ dependentsOf deps name, d ∈ depKeys deps := by
  intro d hd
  simp only [dependentsOf, depKeys, List.mem_map] at hd ⊢
  obtain ⟨p, hp, rfl⟩ := hd
  exact ⟨p, (List.mem_filter.mp hp).1, rfl⟩

theorem dependenciesOf_sub_values (deps : List (String × List String)) (name : String) :
    ∀ n ∈ dependenciesOf deps name, n ∈ depValues deps := by
  intro n hn
  unfold dependenciesOf at hn
  cases hl : lookupA deps name with
  | none => rw [hl] at hn; simp at hn
  | some l =>
    rw [hl] at hn
    simp only [Option.getD_some] at hn
    have hmem := lookupA_mem hl
    simp only [depValues, List.mem_flatMap]
    exact ⟨(name, l), hmem, hn⟩

/-- Strictly fewer elements survive a strictly stronger filter. -/
theorem length_filter_lt {α : Type} (U : List α) (p q : α → Bool)
    (hmono : ∀ x, q x = true → p x = true) (a : α) (ha : a ∈ U)
    (hpa : p a = true) (hqa : q a = false) :
    (U.filter q).length < (U.filter p).length := by
  induction U with
  | nil => cases ha
  | cons u U ih =>
    by_cases hu : u = a
    · subst hu
      have hsub : (U.filter q).Sublist (U.filter p) :=
        List.monotone_filter_right _ (fun x hx => hmono x hx)
      have hle := hsub.length_le
      simp [List.filter, hpa, hqa]
      omega
    · have ha' : a ∈ U := by
        cases ha with
        | head => exact absurd rfl hu
        | tail _ h => exact h
      have hlt := ih ha'
      cases hq : q u <;> cases hp : p u <;> simp [List.filter_cons, hq, hp]
      · omega
      · omega
      · have := hmono u hq
        simp [hp] at this
      · omega

/-- Termination measure for `invalidate_cache`: names not yet on the
`bad_parents` path can each be visited at most twice in a row, so twice the
count of unvisited dependency-map keys plus an indicator for the current
node bounds the remaining recursion depth. -/
def invMeas (deps : List (String × List String)) (name : String)
    (badParents : List String) : Nat :=
  2 * ((depKeys deps).filter (fun x => x ∉ badParents && x ≠ name)).length
    + (if name ∈ badParents then 0 else 1)

theorem invMeas_lt (deps : List (String × List String)) (name d : String)
    (badParents : List String) (hd : d ∉ badParents)
    (hdk : d = name ∨ d ∈ depKeys deps) :
    invMeas deps d (badParents ++ [name]) < invMeas deps name badParents := by
  by_cases hdn : d = name
  · subst hdn
    unfold invMeas
    have hfeq : ((depKeys deps).filter (fun x => x ∉ badParents ++ [d] && x ≠ d))
        = ((depKeys deps).filter (fun x => x ∉ badParents && x ≠ d)) := by
      apply List.filter_congr
      intro x _
      by_cases h1 : x = d <;> by_cases h2 : x ∈ badParents <;>
        simp [h1, h2, List.mem_append]
    rw [hfeq]
    simp [hd, List.mem_append]
  · rcases hdk with rfl | hdk
    · exact absurd rfl hdn
    · unfold invMeas
      have hlt : ((depKeys deps).filter (fun x => x ∉ badParents ++ [name] && x ≠ d)).length
          < ((depKeys deps).filter (fun x => x ∉ badParents && x ≠ name)).length := by
        refine length_filter_lt _ _ _ ?_ d hdk ?_ ?_
        · intro x hx
          simp only [Bool.and_eq_true, decide_eq_true_eq, List.mem_append] at hx ⊢
          refine ⟨fun hmem => hx.1 (Or.inl hmem), fun heq => hx.1 (Or.inr (by simp [heq]))⟩
        · simp [hd, hdn]
        · simp
      have hind : (if d ∈ badParents ++ [name] then 0 else 1) ≤ 1 := by
        split <;> omega
      omega

/-- Termination measure for `check_for_cycles`: the count of dependency
targets not yet on the path. -/
def cfcMeas (deps : List (String × List String)) (init : List String)
    (last : String) : Nat :=
  ((depValues deps).filter (fun x => x ∉ init ++ [last])).length

theorem cfcMeas_lt (deps : List (String × List String)) (init : List String)
    (last n : String) (hn : n ∈ depValues deps) (hnh : n ∉ init ++ [last]) :
    cfcMeas deps (init ++ [last]) n < cfcMeas deps init last := by
  unfold cfcMeas
  refine length_filter_lt _ _ _ ?_ n hn ?_ ?_
  · intro x hx
    simp only [decide_eq_true_eq, List.mem_append, List.mem_singleton] at hx ⊢
    exact fun hmem => hx (Or.inl hmem)
  · simpa using hnh
  · simp

mutual
/-- Inner worker of the default `GameSheet::check_for_cycles`.  The Rust
history vector (always nonempty: it starts as `vec[start_at]` and only
grows) is split as `init ++ [last]`; `last` models `history.last().unwrap()`.
The `for previous in history` loop that returns `true` on
`next_nodes.contains(previous)` is the `any` test; the `for node in
next_nodes` loop of recursive calls is `check_cycles_loop`. -/
def check_for_cycles_inner (deps : List (String × List String))
    (init : List String) (last : String) : Bool :=
  if h : (init ++ [last]).any (fun p => p ∈ dependenciesOf deps last) then true
  else
    check_cycles_loop deps init last
      ⟨dependenciesOf deps last, by
        intro n hn
        refine ⟨dependenciesOf_sub_values deps last n hn, fun hmem => h ?_⟩
        simp only [List.any_eq_true, decide_eq_true_eq]
        exact ⟨n, hmem, hn⟩⟩
termination_by (cfcMeas deps init last, (dependenciesOf deps last).length + 1)
decreasing_by
  · exact Prod.Lex.right _ (by simp)

/-- The `for node in next_nodes` loop of `check_for_cycles_inner`: pushes
the node onto the history and recurses, short-circuiting on `true`.  The
subtype invariant records that every pending node is a dependency target
not already on the history, which bounds the recursion. -/
def check_cycles_loop (deps : List (String × List String))
    (init : List String) (last : String)
    (ds : {l : List String // ∀ n ∈ l, n ∈ depValues deps ∧ n ∉ init ++ [last]}) : Bool :=
  match ds with
  | ⟨[], _⟩ => false
  | ⟨n :: rest, hsub⟩ =>
    if check_for_cycles_inner deps (init ++ [last]) n then true
    else check_cycles_loop deps init last
      ⟨rest, fun x hx => hsub x (List.mem_cons_of_mem _ hx)⟩
termination_by (cfcMeas deps init last, ds.val.length)
decreasing_by
  · exact Prod.Lex.left _ _
      (cfcMeas_lt deps init last n (hsub n (List.mem_cons_self n rest)).1
        (hsub n (List.mem_cons_self n rest)).2)
  · exact Prod.Lex.right _ (by simp)
end

/-- `GameSheet::check_for_cycles` over a dependency map: depth-first search
from `start_at` tracking the full path (`check_for_cycles_inner` with
history `vec[start_at]`). -/
def check_for_cycles (deps : List (String × List String)) (start_at : String) : Bool :=
  check_for_cycles_inner deps [] start_at

mutual
/-- `<Sheet as GameSheet>::invalidate_cache`, acting on the dependency map
(read only) and the cache (mutated in place in Rust, threaded here):
removes `cache[name]`, then recurses into every direct dependent with
`parents = bad_parents ++ [name]`, failing with `CyclicDependency` on a
dependent already in `bad_parents`.  The cache at the moment of an error is
returned alongside it, since the removals before the error persist. -/
def invalidate_cache (deps : List (String × List String)) (name : String)
    (badParents : List String) (cache : List (String × V)) :
    Except (SheetError PE EE V) Unit × List (String × V) :=
  invalidate_loop deps name badParents
    ⟨dependentsOf deps name, dependentsOf_sub_keys deps name⟩
    (eraseA cache name)
termination_by (invMeas deps name badParents, (dependentsOf deps name).length + 1)
decreasing_by
  · exact Prod.Lex.right _ (by simp)

/-- The `for dependent in ...` loop of `invalidate_cache`: checks the
`bad_parents` cycle guard, then recurses into the dependent with the
extended parent path, short-circuiting on error. -/
def invalidate_loop (deps : List (String × List String)) (name : String)
    (badParents : List String)
    (ds : {l : List String // ∀ d ∈ l, d ∈ depKeys deps})
    (cache : List (String × V)) :
    Except (SheetError PE EE V) Unit × List (String × V) :=
  match ds with
  | ⟨[], _⟩ => (.ok (), cache)
  | ⟨d :: rest, hsub⟩ =>
    if hmem : d ∈ badParents then (.error (.CyclicDependency d), cache)
    else
      match invalidate_cache deps d (badParents ++ [name]) cache with
      | (.error e, c) => (.error e, c)
      | (.ok _, c) =>
        invalidate_loop deps name badParents
          ⟨rest, fun x hx => hsub x (List.mem_cons_of_mem _ hx)⟩ c
termination_by (invMeas deps name badParents, ds.val.length)
decreasing_by
  · exact Prod.Lex.left _ _ (invMeas_lt deps name d badParents hmem
      (Or.inr (hsub d (List.mem_cons_self d rest))))
  · exact Prod.Lex.right _ (by simp)
end

/-- `Sheet::invalidate_cache` as a sheet-state transformer: only the cache
field changes. -/
def Sheet.invalidate_cache (s : Sheet A V) (name : String)
    (badParents : List String) : Except (SheetError PE EE V) Unit × Sheet A V :=
  match Gamesheet.invalidate_cache s.deps name badParents s.cache with
  | (r, c) => (r, { s with cache := c })

/-- `<Sheet as GameSheet>::eval`.  Models the sequence: cycle check, cache
hit, compiled-form lookup, merge of the prelude unit and execution.  The
`Bool` component records whether `Engine::eval_ast` was invoked.  The
`none` result models the `expect("AST must exist")` panic on a sheet whose
prelude was never built (unreachable for parsed sheets). -/
def Sheet.eval (E : Evaluator A V PE EE) (s : Sheet A V) (name : String) :
    Option (Except (SheetError PE EE V) V × Sheet A V × Bool) :=
  if check_for_cycles s.deps name then
    some (.error (.CyclicDependency name), s, false)
  else
    match lookupA s.cache name with
    | some v => some (.ok v, s, false)
    | none =>
      match lookupA s.asts name with
      | some ast =>
        match s.prelude_ast with
        | some p =>
          match E.run (E.merge p ast) with
          | .ok outcome =>
            some (.ok outcome, { s with cache := insertA s.cache name outcome }, true)
          | .error e => some (.error (.EvalFailure e), s, true)
        | none => none
      | none => some (.error (.BadDependency name), s, false)

/-- `Sheet::build_entry`: recompile the stored script, store the compiled
form, extract and store the dependency list, then invalidate the cache for
the entry.  A cyclic-dependency error from the invalidation propagates with
the compiled form and dependency list already committed. -/
def Sheet.build_entry (E : Evaluator A V PE EE) (s : Sheet A V) (name : String) :
    Except (SheetError PE EE V) Unit × Sheet A V :=
  match lookupA s.entries name with
  | none => (.ok (), s)
  | some script =>
    match E.compile script with
    | .error e => (.error (.BadScript e), s)
    | .ok ast =>
      let s1 : Sheet A V :=
        { s with
          asts := insertA s.asts name ast
          deps := insertA s.deps name (E.extractDeps ast) }
      Sheet.invalidate_cache s1 name []

/-- `Sheet::insert_entry`: pre-validate that the script compiles in
isolation; only then replace `entries[name]` and rebuild the entry. -/
def Sheet.insert_entry (E : Evaluator A V PE EE) (s : Sheet A V)
    (name : String) (script : String) :
    Except (SheetError PE EE V) Unit × Sheet A V :=
  match E.compile script with
  | .ok _ =>
    Sheet.build_entry E { s with entries := insertA s.entries name script } name
  | .error e => (.error (.BadScript e), s)

/-- `Sheet::build_prelude`: compile the stored prelude; on success store
the compiled form and clear the whole value cache; on failure change
nothing (the early return of `?`). -/
def Sheet.build_prelude (E : Evaluator A V PE EE) (s : Sheet A V) :
    Except (SheetError PE EE V) Unit × Sheet A V :=
  match E.compile s.prelude with
  | .error e => (.error (.BadScript e), s)
  | .ok p => (.ok (), { s with prelude_ast := some p, cache := [] })

/-- `Sheet::insert_prelude`: stores the new prelude source first, then
rebuilds it. -/
def Sheet.insert_prelude (E : Evaluator A V PE EE) (s : Sheet A V)
    (script : String) : Except (SheetError PE EE V) Unit × Sheet A V :=
  Sheet.build_prelude E { s with prelude := script }

/-- `Sheet::get_source`. -/
def Sheet.get_source (s : Sheet A V) (name : String) : Option String :=
  lookupA s.entries name

/-- `Sheet::dependencies` (trait method) on a sheet. -/
def Sheet.dependencies (s : Sheet A V) (name : String) : List String :=
  dependenciesOf s.deps name

/-- `Sheet::dependents` (trait method) on a sheet. -/
def Sheet.dependents (s : Sheet A V) (name : String) : List String :=
  dependentsOf s.deps name

/-- The per-entry compilation loop of `Sheet::parse`
(`for p in sheet.entries ... sheet.build_entry(&p)?`), in entry order. -/
def build_all (E : Evaluator A V PE EE) (s : Sheet A V) :
    List String → Except (SheetError PE EE V) (Sheet A V)
  | [] => .ok s
  | n :: rest =>
    match Sheet.build_entry E s n with
    | (.error e, _) => .error e
    | (.ok _, s') => build_all E s' rest

/-- `Sheet::parse`, starting from the structural content of the parsed
document (the YAML layer is external; a malformed document is the `BadYaml`
case and never reaches this function): build the prelude, build every
entry, then verify that every extracted dependency names an existing entry.
Failures abort the construction and no partial sheet escapes. -/
def Sheet.parse (E : Evaluator A V PE EE) (doc : SheetDoc) :
    Except (SheetError PE EE V) (Sheet A V) :=
  match Sheet.build_prelude E
      { prelude := doc.prelude, prelude_ast := none, entries := doc.entries,
        asts := [], deps := [], cache := [] } with
  | (.error e, _) => .error e
  | (.ok _, s1) =>
    match build_all E s1 (s1.entries.map Prod.fst) with
    | .error e => .error e
    | .ok s2 =>
      match (s2.deps.flatMap Prod.snd).find?
          (fun d => (lookupA s2.entries d).isNone) with
      | some d => .error (.BadDependency d)
      | none => .ok s2

/-- Serialization back to the definition format: the serde derive writes
exactly the non-skipped fields, `prelude` and `entries`. -/
def Sheet.serialize (s : Sheet A V) : SheetDoc :=
  ⟨s.prelude, s.entries⟩

/-- `<[S] as GameSheet>::eval` on the reversed layer list
(`self.iter().rev()`): try each layer, return the first `Ok`, keeping every
tried layer's updated state; when all layers fail the result is a
missing-dependency error.  A `none` (panic) from a layer propagates. -/
def stack_eval_rev (E : Evaluator A V PE EE) :
    List (Sheet A V) → String →
    Option (Except (SheetError PE EE V) V × List (Sheet A V))
  | [], name => some (.error (.BadDependency name), [])
  | s :: rest, name =>
    match Sheet.eval E s name with
    | none => none
    | some (.ok v, s', _) => some (.ok v, s' :: rest)
    | some (.error _, s', _) =>
      match stack_eval_rev E rest name with
      | none => none
      | some (r, rest') => some (r, s' :: rest')

/-- `<[S] as GameSheet>::eval`: layers are ordered lowest priority first;
evaluation tries them from highest (last) to lowest (first). -/
def stack_eval (E : Evaluator A V PE EE) (sheets : List (Sheet A V))
    (name : String) :
    Option (Except (SheetError PE EE V) V × List (Sheet A V)) :=
  match stack_eval_rev E sheets.reverse name with
  | none => none
  | some (r, l) => some (r, l.reverse)

/-- `<[S] as GameSheet>::invalidate_cache`: invalidate in every layer in
slice order, short-circuiting on the first error (the `?`), keeping the
mutations already applied. -/
def stack_invalidate_cache :
    List (Sheet A V) → String → List String →
    Except (SheetError PE EE V) Unit × List (Sheet A V)
  | [], _, _ => (.ok (), [])
  | s :: rest, name, bp =>
    match Sheet.invalidate_cache s name bp with
    | (.error e, s') => (.error e, s' :: rest)
    | (.ok _, s') =>
      match stack_invalidate_cache rest name bp with
      | (r, rest') => (r, s' :: rest')

/-- Reflexive-transitive reachability along a relation on names. -/
inductive ReachesVia (r : String → String → Prop) : String → String → Prop where
  | refl (a : String) : ReachesVia r a a
  | step {a b c : String} : r a b → ReachesVia r b c → ReachesVia r a c

/-- The dependency edge as the engine reads it during evaluation:
`b` is among `dependencies(a)` (first-match lookup). -/
def depEdge (deps : List (String × List String)) (a b : String) : Prop :=
  b ∈ dependenciesOf deps a

/-- The dependency edge as the invalidation traversal reads it: some
binding of `a` in the map lists `b`. -/
def pairEdge (deps : List (String × List String)) (a b : String) : Prop :=
  ∃ l, (a, l) ∈ deps ∧ b ∈ l

/-- A dependency cycle is reachable from `name`: some node `c` reachable
from `name` lies on a nonempty cycle. -/
def CycleReachableFrom (deps : List (String × List String)) (name : String) : Prop :=
  ∃ c b, ReachesVia (depEdge deps) name c ∧ depEdge deps c b ∧
    ReachesVia (depEdge deps) b c

/-- `d` lies on a nonempty cycle of the pairwise dependency relation. -/
def OnPairCycle (deps : List (String × List String)) (d : String) : Prop :=
  ∃ b, pairEdge deps d b ∧ ReachesVia (pairEdge deps) b d

/-- The dependency map has no cycle at all. -/
def AcyclicDeps (deps : List (String × List String)) : Prop :=
  ∀ d, ¬ OnPairCycle deps d

/-! ### A concrete instance of the external evaluator

The spec treats the scripting language as an opaque capability; witnesses
and counterexamples instantiate it with a minimal language satisfying the
collaborator contract: a script is a space-separated list of tokens, where
a token is a numeric literal, a lookup call `g:NAME` (the literal-argument
call to the designated lookup function), or the failing token `fail`; any
other token is a compile error.  Execution sums the numeric literals and
fails iff a `fail` token is present.  Merging concatenates token lists. -/

/-- A compiled token of the minimal script language. -/
inductive MiniTok where
  | lit (n : Nat)
  | get (dep : String)
  | bad
deriving DecidableEq

deriving instance DecidableEq for Except

/-- Split a character list on a separator (structurally recursive so that
concrete runs reduce inside the kernel). -/
def splitChars (sep : Char) : List Char → List (List Char)
  | [] => [[]]
  | c :: rest =>
    if c = sep then [] :: splitChars sep rest
    else
      match splitChars sep rest with
      | [] => [[c]]
      | t :: ts => (c :: t) :: ts

/-- Parse a nonnegative decimal numeral. -/
def natOfCharsAux (acc : Nat) : List Char → Option Nat
  | [] => some acc
  | c :: rest =>
    if c.isDigit then natOfCharsAux (10 * acc + (c.toNat - 48)) rest else none

/-- Compile one token of the minimal script language. -/
def miniTok : List Char → Option MiniTok
  | [] => none
  | 'f' :: 'a' :: 'i' :: 'l' :: [] => some .bad
  | 'g' :: ':' :: rest => some (.get (String.mk rest))
  | l => (natOfCharsAux 0 l).map .lit

/-- Compile a script of the minimal language. -/
def miniCompile (s : String) : Except Unit (List MiniTok) :=
  match (splitChars ' ' s.toList).mapM miniTok with
  | some toks => .ok toks
  | none => .error ()

/-- Static extraction of the literal lookup targets. -/
def miniDeps (toks : List MiniTok) : List String :=
  toks.filterMap (fun t => match t with | .get n => some n | _ => none)

/-- Execute a compiled unit of the minimal language. -/
def miniRun (toks : List MiniTok) : Except Unit Nat :=
  if toks.contains .bad then .error ()
  else .ok (toks.foldl (fun acc t => match t with | .lit n => acc + n | _ => acc) 0)

/-- The minimal evaluator instance used by witnesses and counterexamples. -/
def E_mini : Evaluator (List MiniTok) Nat Unit Unit :=
  ⟨miniCompile, miniDeps, (· ++ ·), miniRun⟩

/-- Total extraction of a sheet from a construction result (the fallback is
never reached in the concrete developments below). -/
def sheet_or_default
    (x : Except (SheetError Unit Unit Nat) (Sheet (List MiniTok) Nat)) :
    Sheet (List MiniTok) Nat :=
  match x with
  | .ok s => s
  | .error _ => ⟨"", none, [], [], [], []⟩

/-- The state after an evaluation (identity on the panic case). -/
def eval_state (s : Sheet (List MiniTok) Nat) (name : String) :
    Sheet (List MiniTok) Nat :=
  match Sheet.eval E_mini s name with
  | some (_, s', _) => s'
  | none => s

/-- Two entries where A depends on B. -/
def doc_ab : SheetDoc := ⟨"0", [("A", "g:B"), ("B", "1")]⟩

def s_ab : Sheet (List MiniTok) Nat := sheet_or_default (Sheet.parse E_mini doc_ab)

/-- The state left behind by the failing `insert_entry("B", "g:A")`: its
dependency map contains the two-cycle A-B. -/
def s_abcyc : Sheet (List MiniTok) Nat := (Sheet.insert_entry E_mini s_ab "B" "g:A").2

/-- A three-entry chain A depends on B depends on C. -/
def doc_chain : SheetDoc := ⟨"0", [("C", "1"), ("B", "g:C"), ("A", "g:B")]⟩

def s_chain : Sheet (List MiniTok) Nat := sheet_or_default (Sheet.parse E_mini doc_chain)

/-- The chain sheet with all three values evaluated and cached. -/
def s_chain_filled : Sheet (List MiniTok) Nat :=
  eval_state (eval_state (eval_state s_chain "A") "B") "C"

/-- One constant entry. -/
def doc_basic : SheetDoc := ⟨"0", [("constant", "7")]⟩

def s_basic : Sheet (List MiniTok) Nat := sheet_or_default (Sheet.parse E_mini doc_basic)

/-- X depends on C and Y. -/
def doc_xy : SheetDoc := ⟨"0", [("C", "1"), ("X", "g:C g:Y"), ("Y", "1")]⟩

def s_xy : Sheet (List MiniTok) Nat := sheet_or_default (Sheet.parse E_mini doc_xy)

/-- The state left behind by the failing `insert_entry("Y", "g:X")`: its
dependency map contains the two-cycle X-Y while C feeds into X. -/
def s_xycyc : Sheet (List MiniTok) Nat := (Sheet.insert_entry E_mini s_xy "Y" "g:X").2

/-- One entry A. -/
def doc_one : SheetDoc := ⟨"0", [("A", "1")]⟩

def s_one : Sheet (List MiniTok) Nat := sheet_or_default (Sheet.parse E_mini doc_one)

/-- The sheet obtained from `s_one` by the succeeding
`insert_entry("A", "g:Z")` whose lookup target Z is undefined. -/
def s_one_dangling : Sheet (List MiniTok) Nat :=
  (Sheet.insert_entry E_mini s_one "A" "g:Z").2

/-- Low-priority layer defining x = 1. -/
def doc_l1 : SheetDoc := ⟨"0", [("x", "1")]⟩

def s_l1 : Sheet (List MiniTok) Nat := sheet_or_default (Sheet.parse E_mini doc_l1)

/-- High-priority layer defining x = 2. -/
def doc_l2 : SheetDoc := ⟨"0", [("x", "2")]⟩

def s_l2 : Sheet (List MiniTok) Nat := sheet_or_default (Sheet.parse E_mini doc_l2)

/-- A layer defining C = 5. -/
def doc_cfive : SheetDoc := ⟨"0", [("C", "5")]⟩

def s_cfive : Sheet (List MiniTok) Nat := sheet_or_default (Sheet.parse E_mini doc_cfive)

/-- That layer with the value of C cached. -/
def s_cfive_filled : Sheet (List MiniTok) Nat := eval_state s_cfive "C"

/-! ### Association-list lemmas -/

theorem lookupA_insertA_self {α : Type} (l : List (String × α)) (k : String) (v : α) :
    lookupA (insertA l k v) k = some v := by
  induction l with
  | nil => simp [insertA, lookupA]
  | cons p rest ih =>
    obtain ⟨k0, v0⟩ := p
    by_cases hk : k0 = k
    · simp [insertA, hk, lookupA]
    · simp [insertA, hk, lookupA, ih]

theorem lookupA_insertA_ne {α : Type} (l : List (String × α)) (k k' : String) (v : α)
    (h : k ≠ k') : lookupA (insertA l k v) k' = lookupA l k' := by
  induction l with
  | nil => simp [insertA, lookupA, h]
  | cons p rest ih =>
    obtain ⟨k0, v0⟩ := p
    by_cases hk : k0 = k
    · subst hk
      simp [insertA, lookupA, h]
    · simp [insertA, hk, lookupA, ih]

theorem lookupA_eraseA_self {α : Type} (l : List (String × α)) (k : String) :
    lookupA (eraseA l k) k = none := by
  induction l with
  | nil => simp [eraseA, lookupA]
  | cons p rest ih =>
    obtain ⟨k0, v0⟩ := p
    by_cases hk : k0 = k
    · simpa [eraseA, hk] using ih
    · simpa [eraseA, hk, lookupA] using ih

theorem lookupA_eraseA_some {α : Type} {l : List (String × α)} {k0 k : String} {v : α}
    (h : lookupA (eraseA l k0) k = some v) : lookupA l k = some v := by
  induction l with
  | nil => simp [eraseA, lookupA] at h
  | cons p rest ih =>
    obtain ⟨k1, v1⟩ := p
    by_cases hd : k1 = k0
    · subst hd
      have h' : lookupA (eraseA rest k1) k = some v := by
        simpa [eraseA, List.filter_cons] using h
      by_cases hkk : k1 = k
      · subst hkk
        rw [lookupA_eraseA_self] at h'
        cases h'
      · simpa [lookupA, hkk] using ih h'
    · by_cases hkk : k1 = k
      · subst hkk
        have h' : some v1 = some v := by
          simpa [eraseA, List.filter_cons, hd, lookupA] using h
        simpa [lookupA] using h'
      · have h' : lookupA (eraseA rest k0) k = some v := by
          simpa [eraseA, List.filter_cons, hd, lookupA, hkk] using h
        simpa [lookupA, hkk] using ih h'

theorem mem_insertA_of_ne {α : Type} {l : List (String × α)} {k : String} {v : α}
    {k0 : String} {v0 : α} (h : (k, v) ∈ l) (hne : k ≠ k0) :
    (k, v) ∈ insertA l k0 v0 := by
  induction l with
  | nil => cases h
  | cons p rest ih =>
    obtain ⟨k1, v1⟩ := p
    rcases List.mem_cons.mp h with h | h
    · obtain ⟨rfl, rfl⟩ := Prod.mk.injEq .. |>.mp h.symm |>.imp Eq.symm Eq.symm
      by_cases hk : k = k0
      · exact absurd hk hne
      · simp [insertA, hk]
    · by_cases hk : k1 = k0
      · subst hk
        simp [insertA]
        exact Or.inr h
      · simp only [insertA, hk, if_false]
        exact List.mem_cons_of_mem _ (ih h)

/-! ### Properties of the invalidation traversal -/

theorem dependentsOf_pairEdge (deps : List (String × List String)) (name : String) :
    ∀ d ∈ dependentsOf deps name, pairEdge deps d name := by
  intro d hd
  simp only [dependentsOf, List.mem_map] at hd
  obtain ⟨p, hp, rfl⟩ := hd
  obtain ⟨hpmem, hpname⟩ := List.mem_filter.mp hp
  exact ⟨p.2, by simpa using hpmem, by simpa using hpname⟩

/-- The invalidation loop only removes cache bindings: any surviving
binding was already present. -/
theorem invalidate_loop_submap (deps : List (String × List String)) :
    ∀ (name : String) (bp : List String)
      (ds : {l : List String // ∀ d ∈ l, d ∈ depKeys deps})
      (cache : List (String × V))
      (r : Except (SheetError PE EE V) Unit) (c' : List (String × V)),
      invalidate_loop deps name bp ds cache = (r, c') →
      ∀ k w, lookupA c' k = some w → lookupA cache k = some w := by
  refine @invalidate_loop.induct V PE EE deps
    (fun name bp cache => ∀ (r : Except (SheetError PE EE V) Unit) (c' : List (String × V)),
      invalidate_cache deps name bp cache = (r, c') →
      ∀ k w, lookupA c' k = some w → lookupA cache k = some w)
    (fun name bp ds cache => ∀ (r : Except (SheetError PE EE V) Unit) (c' : List (String × V)),
      invalidate_loop deps name bp ds cache = (r, c') →
      ∀ k w, lookupA c' k = some w → lookupA cache k = some w)
    ?_ ?_ ?_ ?_ ?_
  · intro name bp cache IH r c' heq k w hw
    rw [invalidate_cache] at heq
    exact lookupA_eraseA_some (IH r c' heq k w hw)
  · intro name bp cache prop r c' heq k w hw
    simp only [invalidate_loop, Prod.mk.injEq] at heq
    rw [heq.2]
    exact hw
  · intro name bp cache d rest hsub hmem r c' heq k w hw
    simp only [invalidate_loop, dif_pos hmem, Prod.mk.injEq] at heq
    rw [heq.2]
    exact hw
  · intro name bp cache d rest hsub hmem e c hic IH1 r c' heq k w hw
    simp only [invalidate_loop, dif_neg hmem, hic, Prod.mk.injEq] at heq
    rw [← heq.2] at hw
    exact IH1 (.error e) c hic k w hw
  · intro name bp cache d rest hsub hmem a c hic IH1 IH2 r c' heq k w hw
    simp only [invalidate_loop, dif_neg hmem, hic] at heq
    exact IH1 (.ok a) c hic k w (IH2 r c' heq k w hw)

/-- `invalidate_cache` only removes cache bindings. -/
theorem invalidate_cache_submap (deps : List (String × List String))
    (name : String) (bp : List String) (cache : List (String × V))
    (r : Except (SheetError PE EE V) Unit) (c' : List (String × V))
    (heq : invalidate_cache deps name bp cache = (r, c')) :
    ∀ k w, lookupA c' k = some w → lookupA cache k = some w := by
  rw [invalidate_cache] at heq
  intro k w hw
  exact lookupA_eraseA_some (invalidate_loop_submap deps name bp _ _ r c' heq k w hw)

/-- Whatever else happens, `invalidate_cache` removes the binding of the
invalidated name itself (the removal precedes the traversal). -/
theorem invalidate_cache_self_none (deps : List (String × List String))
    (name : String) (bp : List String) (cache : List (String × V))
    (r : Except (SheetError PE EE V) Unit) (c' : List (String × V))
    (heq : invalidate_cache deps name bp cache = (r, c')) :
    lookupA c' name = none := by
  cases hl : lookupA c' name with
  | none => rfl
  | some w =>
    rw [invalidate_cache] at heq
    have := invalidate_loop_submap deps name bp _ _ r c' heq name w hl
    rw [lookupA_eraseA_self] at this
    cases this

/-- Decomposition of a successful invalidation loop: every pending
dependent was recursively invalidated with the extended parent path, and
the final cache refines the cache produced by that recursive call. -/
theorem invalidate_loop_ok_calls (deps : List (String × List String)) (name : String)
    (bp : List String) :
    ∀ (l : List String) (hl : ∀ d ∈ l, d ∈ depKeys deps) (cache c' : List (String × V)),
      invalidate_loop deps name bp ⟨l, hl⟩ cache
        = ((.ok () : Except (SheetError PE EE V) Unit), c') →
      ∀ d ∈ l, ∃ cin cout,
        invalidate_cache deps d (bp ++ [name]) cin
          = ((.ok () : Except (SheetError PE EE V) Unit), cout) ∧
        (∀ k w, lookupA c' k = some w → lookupA cout k = some w) := by
  intro l
  induction l with
  | nil =>
    intro hl cache c' heq d hd
    cases hd
  | cons d0 rest ih =>
    intro hl cache c' heq d hd
    by_cases hmem : d0 ∈ bp
    · simp only [invalidate_loop, dif_pos hmem, Prod.mk.injEq] at heq
      cases heq.1
    · rcases hic : (invalidate_cache deps d0 (bp ++ [name]) cache :
          Except (SheetError PE EE V) Unit × List (String × V)) with ⟨r1, c⟩
      cases r1 with
      | error e =>
        simp only [invalidate_loop, dif_neg hmem, hic, Prod.mk.injEq] at heq
        cases heq.1
      | ok u =>
        cases u
        simp only [invalidate_loop, dif_neg hmem, hic] at heq
        rcases List.mem_cons.mp hd with rfl | hd
        · exact ⟨cache, c, hic, fun k w hw =>
            invalidate_loop_submap deps name bp _ _ _ c' heq k w hw⟩
        · exact ih _ c c' heq d hd

/-- A successful `invalidate_cache` removes the invalidated name and every
direct dependent from the cache, having recursively invalidated each
dependent. -/
theorem invalidate_cache_ok_dependents (deps : List (String × List String))
    (name : String) (bp : List String) (cache c' : List (String × V))
    (heq : invalidate_cache deps name bp cache
      = ((.ok () : Except (SheetError PE EE V) Unit), c')) :
    ∀ d ∈ dependentsOf deps name,
      lookupA c' d = none ∧ ∃ cin cout,
        invalidate_cache deps d (bp ++ [name]) cin
          = ((.ok () : Except (SheetError PE EE V) Unit), cout) ∧
        (∀ k w, lookupA c' k = some w → lookupA cout k = some w) := by
  intro d hd
  rw [invalidate_cache] at heq
  obtain ⟨cin, cout, hcall, hrefine⟩ :=
    invalidate_loop_ok_calls deps name bp _ (dependentsOf_sub_keys deps name) _ c' heq d hd
  have hnone : lookupA c' d = none := by
    cases hl : lookupA c' d with
    | none => rfl
    | some w =>
      have := hrefine d w hl
      rw [invalidate_cache_self_none deps d (bp ++ [name]) cin _ cout hcall] at this
      cases this
  exact ⟨hnone, cin, cout, hcall, hrefine⟩

/-- Any error produced by the invalidation loop is a cyclic-dependency
error naming a node that lies on an actual dependency cycle.  The first
hypothesis is the path invariant: every recorded parent is reachable from
the current node; the second records that every pending dependent has a
dependency edge to the current node. -/
theorem invalidate_loop_error_cyclic (deps : List (String × List String)) :
    ∀ (name : String) (bp : List String)
      (ds : {l : List String // ∀ d ∈ l, d ∈ depKeys deps})
      (cache : List (String × V)),
      (∀ x ∈ bp, ReachesVia (pairEdge deps) name x) →
      (∀ d ∈ ds.val, pairEdge deps d name) →
      ∀ (e : SheetError PE EE V) (c' : List (String × V)),
        invalidate_loop deps name bp ds cache = (.error e, c') →
        ∃ d, e = .CyclicDependency d ∧ OnPairCycle deps d := by
  refine @invalidate_loop.induct V PE EE deps
    (fun name bp cache => (∀ x ∈ bp, ReachesVia (pairEdge deps) name x) →
      ∀ (e : SheetError PE EE V) (c' : List (String × V)),
      invalidate_cache deps name bp cache = (.error e, c') →
      ∃ d, e = .CyclicDependency d ∧ OnPairCycle deps d)
    (fun name bp ds cache => (∀ x ∈ bp, ReachesVia (pairEdge deps) name x) →
      (∀ d ∈ ds.val, pairEdge deps d name) →
      ∀ (e : SheetError PE EE V) (c' : List (String × V)),
      invalidate_loop deps name bp ds cache = (.error e, c') →
      ∃ d, e = .CyclicDependency d ∧ OnPairCycle deps d)
    ?_ ?_ ?_ ?_ ?_
  · intro name bp cache IH hJ e c' heq
    rw [invalidate_cache] at heq
    exact IH hJ (dependentsOf_pairEdge deps name) e c' heq
  · intro name bp cache prop hJ hds e c' heq
    simp only [invalidate_loop, Prod.mk.injEq] at heq
    cases heq.1
  · intro name bp cache d rest hsub hmem hJ hds e c' heq
    simp only [invalidate_loop, dif_pos hmem, Prod.mk.injEq, Except.error.injEq] at heq
    have hedge : pairEdge deps d name := hds d (List.mem_cons_self d rest)
    refine ⟨d, heq.1.symm, name, hedge, hJ d hmem⟩
  · intro name bp cache d rest hsub hmem e0 c hic IH1 hJ hds e c' heq
    simp only [invalidate_loop, dif_neg hmem, hic, Prod.mk.injEq, Except.error.injEq] at heq
    have hedge : pairEdge deps d name := hds d (List.mem_cons_self d rest)
    have hJ' : ∀ x ∈ bp ++ [name], ReachesVia (pairEdge deps) d x := by
      intro x hx
      rcases List.mem_append.mp hx with hx | hx
      · exact .step hedge (hJ x hx)
      · rw [List.mem_singleton.mp hx]
        exact .step hedge (.refl name)
    obtain ⟨d1, hd1, hcyc⟩ := IH1 hJ' e0 c hic
    exact ⟨d1, by rw [← heq.1, hd1], hcyc⟩
  · intro name bp cache d rest hsub hmem a c hic IH1 IH2 hJ hds e c' heq
    simp only [invalidate_loop, dif_neg hmem, hic] at heq
    exact IH2 hJ (fun x hx => hds x (List.mem_cons_of_mem _ hx)) e c' heq

/-- Any error of `invalidate_cache` started with an empty visited list is a
cyclic-dependency error naming a node on an actual dependency cycle. -/
theorem invalidate_cache_error_cyclic (deps : List (String × List String))
    (name : String) (cache : List (String × V))
    (e : SheetError PE EE V) (c' : List (String × V))
    (heq : invalidate_cache deps name [] cache = (.error e, c')) :
    ∃ d, e = .CyclicDependency d ∧ OnPairCycle deps d := by
  rw [invalidate_cache] at heq
  exact invalidate_loop_error_cyclic deps name [] _ _
    (by intro x hx; cases hx) (dependentsOf_pairEdge deps name) e c' heq

/-! ### Completeness of the depth-first cycle check -/

/-- From a node with a reachable cycle there is a first dependency step
that again has a reachable cycle. -/
theorem cycle_reachable_step (deps : List (String × List String)) (last : String)
    (h : CycleReachableFrom deps last) :
    ∃ n, depEdge deps last n ∧ CycleReachableFrom deps n := by
  obtain ⟨c, b, hreach, hedge, hback⟩ := h
  cases hreach with
  | refl _ => exact ⟨b, hedge, _, b, hback, hedge, hback⟩
  | step hx hrest => exact ⟨_, hx, _, b, hrest, hedge, hback⟩

/-- The depth-first search of `check_for_cycles` finds a cycle whenever one
is reachable from the last node of the history. -/
theorem check_for_cycles_inner_complete (deps : List (String × List String)) :
    ∀ (init : List String) (last : String),
      CycleReachableFrom deps last → check_for_cycles_inner deps init last = true := by
  refine check_for_cycles_inner.induct deps
    (fun init last => CycleReachableFrom deps last →
      check_for_cycles_inner deps init last = true)
    (fun init last ds => (∃ n ∈ ds.val, CycleReachableFrom deps n) →
      check_cycles_loop deps init last ds = true)
    ?_ ?_ ?_ ?_ ?_
  · intro init last hcond _
    simp only [check_for_cycles_inner, dif_pos hcond]
  · intro init last hcond IH hCR
    obtain ⟨n1, hedge, hCR1⟩ := cycle_reachable_step deps last hCR
    simp only [check_for_cycles_inner, dif_neg hcond]
    exact IH ⟨n1, hedge, hCR1⟩
  · intro init last prop hex
    obtain ⟨n, hn, _⟩ := hex
    cases hn
  · intro init last n rest hsub hstep IH1 hex
    simp [check_cycles_loop, hstep]
  · intro init last n rest hsub hstep IH1 IH2 hex
    have hloop : check_cycles_loop deps init last
        ⟨n :: rest, hsub⟩ = check_cycles_loop deps init last
        ⟨rest, fun x hx => hsub x (List.mem_cons_of_mem _ hx)⟩ := by
      simp only [check_cycles_loop, if_neg hstep]
    rw [hloop]
    rcases hex with ⟨n', hn', hCR'⟩
    rcases List.mem_cons.mp hn' with rfl | hn'
    · exact absurd (IH1 hCR') hstep
    · exact IH2 ⟨n', hn', hCR'⟩


/-! ### Inversion lemmas for evaluation and mutation -/

/-- A successful evaluation leaves every field except the cache unchanged,
implies the cycle check was negative, and caches the returned value. -/
theorem eval_ok_inv (E : Evaluator A V PE EE) (s : Sheet A V) (name : String)
    (v : V) (s' : Sheet A V) (b : Bool)
    (h : Sheet.eval E s name = some (.ok v, s', b)) :
    check_for_cycles s.deps name = false ∧ s'.prelude = s.prelude ∧
    s'.prelude_ast = s.prelude_ast ∧ s'.entries = s.entries ∧
    s'.asts = s.asts ∧ s'.deps = s.deps ∧ lookupA s'.cache name = some v := by
  unfold Sheet.eval at h
  by_cases hcyc : check_for_cycles s.deps name = true
  · simp [hcyc] at h
  · rw [if_neg (by simpa using hcyc)] at h
    refine ⟨by simpa using hcyc, ?_⟩
    cases hcache : lookupA s.cache name with
    | some w =>
      simp only [hcache] at h
      simp only [Option.some.injEq, Prod.mk.injEq, Except.ok.injEq] at h
      obtain ⟨rfl, rfl, -⟩ := h
      simp [hcache]
    | none =>
      simp only [hcache] at h
      cases hast : lookupA s.asts name with
      | none => simp only [hast] at h; simp at h
      | some ast =>
        simp only [hast] at h
        cases hpre : s.prelude_ast with
        | none => simp only [hpre] at h; simp at h
        | some p =>
          simp only [hpre] at h
          cases hrun : E.run (E.merge p ast) with
          | error e => simp only [hrun] at h; simp at h
          | ok outcome =>
            simp only [hrun] at h
            simp only [Option.some.injEq, Prod.mk.injEq, Except.ok.injEq] at h
            obtain ⟨rfl, rfl, -⟩ := h
            simp [hpre, lookupA_insertA_self]

/-- A failed evaluation leaves the sheet unchanged. -/
theorem eval_error_state (E : Evaluator A V PE EE) (s : Sheet A V) (name : String)
    (e : SheetError PE EE V) (s' : Sheet A V) (b : Bool)
    (h : Sheet.eval E s name = some (.error e, s', b)) : s' = s := by
  unfold Sheet.eval at h
  by_cases hcyc : check_for_cycles s.deps name = true
  · simp only [hcyc, if_true, Option.some.injEq, Prod.mk.injEq] at h
    exact h.2.1.symm
  · rw [if_neg (by simpa using hcyc)] at h
    cases hcache : lookupA s.cache name with
    | some w => simp only [hcache] at h; simp at h
    | none =>
      simp only [hcache] at h
      cases hast : lookupA s.asts name with
      | none =>
        simp only [hast] at h
        simp only [Option.some.injEq, Prod.mk.injEq] at h
        exact h.2.1.symm
      | some ast =>
        simp only [hast] at h
        cases hpre : s.prelude_ast with
        | none => simp only [hpre] at h; simp at h
        | some p =>
          simp only [hpre] at h
          cases hrun : E.run (E.merge p ast) with
          | ok outcome => simp only [hrun] at h; simp at h
          | error e0 =>
            simp only [hrun] at h
            simp only [Option.some.injEq, Prod.mk.injEq] at h
            exact h.2.1.symm

/-- An evaluation that succeeds on a cache miss has invoked the evaluator. -/
theorem eval_miss_ok_invoked (E : Evaluator A V PE EE) (s : Sheet A V)
    (name : String) (v : V) (s' : Sheet A V) (b : Bool)
    (hmiss : lookupA s.cache name = none)
    (h : Sheet.eval E s name = some (.ok v, s', b)) : b = true := by
  unfold Sheet.eval at h
  by_cases hcyc : check_for_cycles s.deps name = true
  · simp [hcyc] at h
  · rw [if_neg (by simpa using hcyc)] at h
    simp only [hmiss] at h
    cases hast : lookupA s.asts name with
    | none => simp only [hast] at h; simp at h
    | some ast =>
      simp only [hast] at h
      cases hpre : s.prelude_ast with
      | none => simp only [hpre] at h; simp at h
      | some p =>
        simp only [hpre] at h
        cases hrun : E.run (E.merge p ast) with
        | error e => simp only [hrun] at h; simp at h
        | ok outcome =>
          simp only [hrun] at h
          simp only [Option.some.injEq, Prod.mk.injEq] at h
          exact h.2.2.symm

/-- `build_entry` never touches the prelude, its compiled form, or the
entry store. -/
theorem build_entry_fields (E : Evaluator A V PE EE) (s : Sheet A V) (name : String) :
    (Sheet.build_entry E s name).2.prelude = s.prelude ∧
    (Sheet.build_entry E s name).2.prelude_ast = s.prelude_ast ∧
    (Sheet.build_entry E s name).2.entries = s.entries := by
  unfold Sheet.build_entry Sheet.invalidate_cache
  split
  · exact ⟨rfl, rfl, rfl⟩
  · split
    · exact ⟨rfl, rfl, rfl⟩
    · simp only []
      exact ⟨trivial, trivial, trivial⟩

/-- Characterization of `build_entry` on an entry whose stored script
compiles: the compiled form and dependency list are committed, then the
cache is invalidated over the updated dependency map. -/
theorem build_entry_compiled (E : Evaluator A V PE EE) (s : Sheet A V)
    (name script : String) (ast : A)
    (hs : lookupA s.entries name = some script)
    (hc : E.compile script = .ok ast) :
    Sheet.build_entry E s name =
      ((invalidate_cache (insertA s.deps name (E.extractDeps ast)) name [] s.cache
          : Except (SheetError PE EE V) Unit × List (String × V)).1,
       { s with asts := insertA s.asts name ast,
                deps := insertA s.deps name (E.extractDeps ast),
                cache := (invalidate_cache (insertA s.deps name (E.extractDeps ast))
                  name [] s.cache
                  : Except (SheetError PE EE V) Unit × List (String × V)).2 }) := by
  unfold Sheet.build_entry Sheet.invalidate_cache
  simp only [hs, hc]

/-- `insert_entry` with a compiling script commits the entry first and then
rebuilds it. -/
theorem insert_entry_compiled (E : Evaluator A V PE EE) (s : Sheet A V)
    (name script : String) (ast : A) (hc : E.compile script = .ok ast) :
    Sheet.insert_entry E s name script
      = Sheet.build_entry E { s with entries := insertA s.entries name script } name := by
  unfold Sheet.insert_entry
  rw [hc]

/-- `insert_entry` with a non-compiling script reports the compile error
and changes nothing. -/
theorem insert_entry_badscript (E : Evaluator A V PE EE) (s : Sheet A V)
    (name script : String) (e : PE) (hc : E.compile script = .error e) :
    Sheet.insert_entry E s name script = (.error (.BadScript e), s) := by
  unfold Sheet.insert_entry
  rw [hc]

/-- `build_prelude` never touches the prelude source, the entry store, the
compiled entries or the dependency map. -/
theorem build_prelude_fields (E : Evaluator A V PE EE) (s : Sheet A V) :
    (Sheet.build_prelude E s).2.prelude = s.prelude ∧
    (Sheet.build_prelude E s).2.entries = s.entries ∧
    (Sheet.build_prelude E s).2.asts = s.asts ∧
    (Sheet.build_prelude E s).2.deps = s.deps := by
  unfold Sheet.build_prelude
  cases hc : E.compile s.prelude with
  | error e => exact ⟨rfl, rfl, rfl, rfl⟩
  | ok p => exact ⟨rfl, rfl, rfl, rfl⟩

/-- The entry-building loop of `parse` preserves the prelude, its compiled
form, and the entry store. -/
theorem build_all_fields (E : Evaluator A V PE EE) :
    ∀ (L : List String) (s s' : Sheet A V), build_all E s L = .ok s' →
      s'.prelude = s.prelude ∧ s'.prelude_ast = s.prelude_ast ∧
      s'.entries = s.entries := by
  intro L
  induction L with
  | nil =>
    intro s s' h
    simp only [build_all, Except.ok.injEq] at h
    rw [← h]
    exact ⟨rfl, rfl, rfl⟩
  | cons n rest ih =>
    intro s s' h
    rcases hbe : (Sheet.build_entry E s n :
        Except (SheetError PE EE V) Unit × Sheet A V) with ⟨r, s1⟩
    cases r with
    | error e => rw [build_all, hbe] at h; cases h
    | ok u =>
      rw [build_all, hbe] at h
      obtain ⟨h1, h2, h3⟩ := ih s1 s' h
      have hf := build_entry_fields E s n
      rw [hbe] at hf
      exact ⟨h1.trans hf.1, h2.trans hf.2.1, h3.trans hf.2.2⟩

/-- A parsed sheet stores exactly the prelude and entry map of its
document. -/
theorem parse_ok_fields (E : Evaluator A V PE EE) (doc : SheetDoc) (s : Sheet A V)
    (h : Sheet.parse E doc = .ok s) :
    s.prelude = doc.prelude ∧ s.entries = doc.entries := by
  unfold Sheet.parse at h
  rcases hbp : (Sheet.build_prelude E
      { prelude := doc.prelude, prelude_ast := none, entries := doc.entries,
        asts := [], deps := [], cache := [] } :
      Except (SheetError PE EE V) Unit × Sheet A V) with ⟨r1, s1⟩
  cases r1 with
  | error e =>
    simp only [hbp] at h
    exact Except.noConfusion h
  | ok u =>
    simp only [hbp] at h
    rcases hba : build_all E s1 (s1.entries.map Prod.fst) with e | s2
    · simp only [hba] at h
      exact Except.noConfusion h
    · simp only [hba] at h
      cases hfind : (s2.deps.flatMap Prod.snd).find?
          (fun d => (lookupA s2.entries d).isNone) with
      | some d =>
        simp only [hfind] at h
        exact Except.noConfusion h
      | none =>
        simp only [hfind, Except.ok.injEq] at h
        subst h
        have hf1 := build_prelude_fields E
          ({ prelude := doc.prelude, prelude_ast := none, entries := doc.entries,
             asts := [], deps := [], cache := [] } : Sheet A V)
        rw [hbp] at hf1
        have hf2 := build_all_fields E _ s1 s2 hba
        refine ⟨hf2.1.trans ?_, hf2.2.2.trans ?_⟩
        · exact hf1.1
        · exact hf1.2.1



/-! ### Layer-stack lemmas -/

/-- Layers that fail to evaluate are passed over by the reversed stack
evaluation, with their states unchanged. -/
theorem stack_eval_rev_skip (E : Evaluator A V PE EE) (name : String) :
    ∀ (pre rest : List (Sheet A V)),
      (∀ s ∈ pre, ∃ e s2 b, Sheet.eval E s name = some (.error e, s2, b)) →
      stack_eval_rev E (pre ++ rest) name
        = (stack_eval_rev E rest name).map (fun p => (p.1, pre ++ p.2)) := by
  intro pre
  induction pre with
  | nil =>
    intro rest _
    cases h : stack_eval_rev E rest name with
    | none => simp [h]
    | some p => simp [h]
  | cons s pre ih =>
    intro rest hfail
    obtain ⟨e, s2, b, hev⟩ := hfail s (List.mem_cons_self s pre)
    obtain rfl := eval_error_state E s name e s2 b hev
    have hrest := ih rest (fun x hx => hfail x (List.mem_cons_of_mem _ hx))
    simp only [List.cons_append, stack_eval_rev, hev]
    cases h : stack_eval_rev E rest name with
    | none => simp [hrest, h]
    | some p => simp [hrest, h]

/-- When every layer of the stack fails to evaluate `name`, the stack
evaluation fails with a missing-dependency error and the stack is
unchanged. -/
theorem stack_eval_all_fail (E : Evaluator A V PE EE) (name : String)
    (sheets : List (Sheet A V))
    (hfail : ∀ s ∈ sheets, ∃ e s2 b, Sheet.eval E s name = some (.error e, s2, b)) :
    stack_eval E sheets name = some (.error (.BadDependency name), sheets) := by
  unfold stack_eval
  have h := stack_eval_rev_skip E name sheets.reverse []
    (fun x hx => hfail x (List.mem_reverse.mp hx))
  rw [List.append_nil] at h
  rw [h]
  simp [stack_eval_rev]

/-- The stack tries layers from highest to lowest priority and returns the
first success: if all layers above `m` fail and `m` evaluates to `v`, the
stack evaluates to `v` and only the state of `m` changes. -/
theorem stack_eval_first_success (E : Evaluator A V PE EE) (name : String)
    (lo hi : List (Sheet A V)) (m m' : Sheet A V) (v : V) (bm : Bool)
    (hfail : ∀ s ∈ hi, ∃ e s2 b, Sheet.eval E s name = some (.error e, s2, b))
    (hm : Sheet.eval E m name = some (.ok v, m', bm)) :
    stack_eval E (lo ++ m :: hi) name = some (.ok v, lo ++ m' :: hi) := by
  unfold stack_eval
  have hrev : (lo ++ m :: hi).reverse = hi.reverse ++ (m :: lo.reverse) := by
    simp
  rw [hrev]
  have h := stack_eval_rev_skip E name hi.reverse (m :: lo.reverse)
    (fun x hx => hfail x (List.mem_reverse.mp hx))
  rw [h]
  have hm' : stack_eval_rev E (m :: lo.reverse) name = some (.ok v, m' :: lo.reverse) := by
    simp only [stack_eval_rev, hm]
  rw [hm']
  simp

/-- A successful stack invalidation ran the per-sheet invalidation on every
layer in order, and the invalidated name is absent from every layer's
cache. -/
theorem stack_invalidate_ok (name : String) (bp : List String) :
    ∀ (sheets sheets' : List (Sheet A V)),
      stack_invalidate_cache sheets name bp
        = ((.ok () : Except (SheetError PE EE V) Unit), sheets') →
      List.Forall₂ (fun s s' => Sheet.invalidate_cache s name bp
        = ((.ok () : Except (SheetError PE EE V) Unit), s')) sheets sheets' ∧
      ∀ s' ∈ sheets', lookupA s'.cache name = none := by
  intro sheets
  induction sheets with
  | nil =>
    intro sheets' h
    simp only [stack_invalidate_cache, Prod.mk.injEq] at h
    rw [← h.2]
    exact ⟨List.Forall₂.nil, by intro s' hs'; cases hs'⟩
  | cons s rest ih =>
    intro sheets' h
    rcases hs : (Sheet.invalidate_cache s name bp :
        Except (SheetError PE EE V) Unit × Sheet A V) with ⟨r1, s1⟩
    cases r1 with
    | error e =>
      simp only [stack_invalidate_cache, hs, Prod.mk.injEq] at h
      exact Except.noConfusion h.1
    | ok u =>
      cases u
      rcases hrest : (stack_invalidate_cache rest name bp :
          Except (SheetError PE EE V) Unit × List (Sheet A V)) with ⟨r2, rest'⟩
      simp only [stack_invalidate_cache, hs, hrest, Prod.mk.injEq] at h
      obtain ⟨rfl, rfl⟩ := h
      obtain ⟨hall, hnone⟩ := ih rest' hrest
      refine ⟨List.Forall₂.cons hs hall, ?_⟩
      intro s' hs'
      rcases List.mem_cons.mp hs' with rfl | hs'
      · unfold Sheet.invalidate_cache at hs
        rcases hinv : (invalidate_cache s.deps name bp s.cache :
            Except (SheetError PE EE V) Unit × List (String × V)) with ⟨ri, ci⟩
        rw [hinv] at hs
        simp only [Prod.mk.injEq] at hs
        rw [← hs.2]
        simpa using invalidate_cache_self_none s.deps name bp s.cache ri ci hinv
      · exact hnone s' hs'



/-! ### Concrete computations for the minimal evaluator -/

theorem mc_zero : E_mini.compile "0" = .ok [.lit 0] := by decide
theorem mc_one : E_mini.compile "1" = .ok [.lit 1] := by decide
theorem mc_two : E_mini.compile "2" = .ok [.lit 2] := by decide
theorem mc_five : E_mini.compile "5" = .ok [.lit 5] := by decide
theorem mc_seven : E_mini.compile "7" = .ok [.lit 7] := by decide
theorem mc_gA : E_mini.compile "g:A" = .ok [.get "A"] := by decide
theorem mc_gB : E_mini.compile "g:B" = .ok [.get "B"] := by decide
theorem mc_gC : E_mini.compile "g:C" = .ok [.get "C"] := by decide
theorem mc_gX : E_mini.compile "g:X" = .ok [.get "X"] := by decide
theorem mc_gZ : E_mini.compile "g:Z" = .ok [.get "Z"] := by decide
theorem mc_gCgY : E_mini.compile "g:C g:Y" = .ok [.get "C", .get "Y"] := by decide
theorem mc_bad : E_mini.compile "?" = .error () := by decide

theorem med_lit (n : Nat) : E_mini.extractDeps [.lit n] = [] := by
  simp [E_mini, miniDeps]
theorem med_get (d : String) : E_mini.extractDeps [.get d] = [d] := by
  simp [E_mini, miniDeps]
theorem med_getget (d1 d2 : String) :
    E_mini.extractDeps [.get d1, .get d2] = [d1, d2] := by
  simp [E_mini, miniDeps]

theorem mrun_lit (n m : Nat) : E_mini.run (E_mini.merge [.lit n] [.lit m]) = .ok (n + m) := by
  simp [E_mini, miniRun]
theorem mrun_get (n : Nat) (d : String) :
    E_mini.run (E_mini.merge [.lit n] [.get d]) = .ok n := by
  simp [E_mini, miniRun]

theorem s_ab_val : s_ab =
    ⟨"0", some [.lit 0], [("A", "g:B"), ("B", "1")],
     [("A", [.get "B"]), ("B", [.lit 1])],
     [("A", ["B"]), ("B", [])], []⟩ := by
  simp [s_ab, sheet_or_default, doc_ab, Sheet.parse, Sheet.build_prelude, build_all,
    Sheet.build_entry, Sheet.invalidate_cache, invalidate_cache, invalidate_loop,
    dependentsOf, eraseA, lookupA, insertA, mc_zero, mc_gB, mc_one,
    med_lit, med_get, List.find?]



theorem insert_ab_result : Sheet.insert_entry E_mini s_ab "B" "g:A" =
    (.error (.CyclicDependency "B"),
     ⟨"0", some [.lit 0], [("A", "g:B"), ("B", "g:A")],
      [("A", [.get "B"]), ("B", [.get "A"])],
      [("A", ["B"]), ("B", ["A"])], []⟩) := by
  rw [s_ab_val]
  simp [Sheet.insert_entry, Sheet.build_entry, Sheet.invalidate_cache,
    invalidate_cache, invalidate_loop, dependentsOf, eraseA, lookupA, insertA,
    mc_gA, med_get]

theorem s_abcyc_val : s_abcyc =
    ⟨"0", some [.lit 0], [("A", "g:B"), ("B", "g:A")],
     [("A", [.get "B"]), ("B", [.get "A"])],
     [("A", ["B"]), ("B", ["A"])], []⟩ := by
  simp [s_abcyc, insert_ab_result]

theorem s_chain_val : s_chain =
    ⟨"0", some [.lit 0], [("C", "1"), ("B", "g:C"), ("A", "g:B")],
     [("C", [.lit 1]), ("B", [.get "C"]), ("A", [.get "B"])],
     [("C", []), ("B", ["C"]), ("A", ["B"])], []⟩ := by
  simp [s_chain, sheet_or_default, doc_chain, Sheet.parse, Sheet.build_prelude,
    build_all, Sheet.build_entry, Sheet.invalidate_cache, invalidate_cache,
    invalidate_loop, dependentsOf, eraseA, lookupA, insertA, mc_zero, mc_one,
    mc_gB, mc_gC, med_lit, med_get, List.find?]

theorem s_chain_filled_val : s_chain_filled =
    ⟨"0", some [.lit 0], [("C", "1"), ("B", "g:C"), ("A", "g:B")],
     [("C", [.lit 1]), ("B", [.get "C"]), ("A", [.get "B"])],
     [("C", []), ("B", ["C"]), ("A", ["B"])],
     [("A", 0), ("B", 0), ("C", 1)]⟩ := by
  simp [s_chain_filled, eval_state, s_chain_val, Sheet.eval, check_for_cycles,
    check_for_cycles_inner, check_cycles_loop, dependenciesOf, lookupA, insertA,
    E_mini, miniRun]



theorem insert_chain_result : Sheet.insert_entry E_mini s_chain_filled "C" "2" =
    (.ok (),
     ⟨"0", some [.lit 0], [("C", "2"), ("B", "g:C"), ("A", "g:B")],
      [("C", [.lit 2]), ("B", [.get "C"]), ("A", [.get "B"])],
      [("C", []), ("B", ["C"]), ("A", ["B"])], []⟩) := by
  rw [s_chain_filled_val]
  simp [Sheet.insert_entry, Sheet.build_entry, Sheet.invalidate_cache,
    invalidate_cache, invalidate_loop, dependentsOf, eraseA, lookupA, insertA,
    mc_two, med_lit]

theorem s_basic_val : s_basic =
    ⟨"0", some [.lit 0], [("constant", "7")], [("constant", [.lit 7])],
     [("constant", [])], []⟩ := by
  simp [s_basic, sheet_or_default, doc_basic, Sheet.parse, Sheet.build_prelude,
    build_all, Sheet.build_entry, Sheet.invalidate_cache, invalidate_cache,
    invalidate_loop, dependentsOf, eraseA, lookupA, insertA, mc_zero, mc_seven,
    med_lit, List.find?]

theorem eval_basic : Sheet.eval E_mini s_basic "constant" =
    some (.ok 7,
      ⟨"0", some [.lit 0], [("constant", "7")], [("constant", [.lit 7])],
       [("constant", [])], [("constant", 7)]⟩, true) := by
  rw [s_basic_val]
  simp [Sheet.eval, check_for_cycles, check_for_cycles_inner, check_cycles_loop,
    dependenciesOf, lookupA, insertA, E_mini, miniRun]

theorem s_xy_val : s_xy =
    ⟨"0", some [.lit 0], [("C", "1"), ("X", "g:C g:Y"), ("Y", "1")],
     [("C", [.lit 1]), ("X", [.get "C", .get "Y"]), ("Y", [.lit 1])],
     [("C", []), ("X", ["C", "Y"]), ("Y", [])], []⟩ := by
  simp [s_xy, sheet_or_default, doc_xy, Sheet.parse, Sheet.build_prelude,
    build_all, Sheet.build_entry, Sheet.invalidate_cache, invalidate_cache,
    invalidate_loop, dependentsOf, eraseA, lookupA, insertA, mc_zero, mc_one,
    mc_gCgY, med_lit, med_getget, List.find?]

theorem insert_xy_result : Sheet.insert_entry E_mini s_xy "Y" "g:X" =
    (.error (.CyclicDependency "Y"),
     ⟨"0", some [.lit 0], [("C", "1"), ("X", "g:C g:Y"), ("Y", "g:X")],
      [("C", [.lit 1]), ("X", [.get "C", .get "Y"]), ("Y", [.get "X"])],
      [("C", []), ("X", ["C", "Y"]), ("Y", ["X"])], []⟩) := by
  rw [s_xy_val]
  simp [Sheet.insert_entry, Sheet.build_entry, Sheet.invalidate_cache,
    invalidate_cache, invalidate_loop, dependentsOf, eraseA, lookupA, insertA,
    mc_gX, med_get]

theorem s_xycyc_val : s_xycyc =
    ⟨"0", some [.lit 0], [("C", "1"), ("X", "g:C g:Y"), ("Y", "g:X")],
     [("C", [.lit 1]), ("X", [.get "C", .get "Y"]), ("Y", [.get "X"])],
     [("C", []), ("X", ["C", "Y"]), ("Y", ["X"])], []⟩ := by
  simp [s_xycyc, insert_xy_result]



theorem s_one_val : s_one =
    ⟨"0", some [.lit 0], [("A", "1")], [("A", [.lit 1])], [("A", [])], []⟩ := by
  simp [s_one, sheet_or_default, doc_one, Sheet.parse, Sheet.build_prelude,
    build_all, Sheet.build_entry, Sheet.invalidate_cache, invalidate_cache,
    invalidate_loop, dependentsOf, eraseA, lookupA, insertA, mc_zero, mc_one,
    med_lit, List.find?]

theorem insert_one_result : Sheet.insert_entry E_mini s_one "A" "g:Z" =
    (.ok (),
     ⟨"0", some [.lit 0], [("A", "g:Z")], [("A", [.get "Z"])], [("A", ["Z"])], []⟩) := by
  rw [s_one_val]
  simp [Sheet.insert_entry, Sheet.build_entry, Sheet.invalidate_cache,
    invalidate_cache, invalidate_loop, dependentsOf, eraseA, lookupA, insertA,
    mc_gZ, med_get]

theorem s_one_dangling_val : s_one_dangling =
    ⟨"0", some [.lit 0], [("A", "g:Z")], [("A", [.get "Z"])], [("A", ["Z"])], []⟩ := by
  simp [s_one_dangling, insert_one_result]

theorem roundtrip_broken : Sheet.parse E_mini (Sheet.serialize s_one_dangling)
    = .error (.BadDependency "Z") := by
  rw [s_one_dangling_val]
  simp [Sheet.serialize, Sheet.parse, Sheet.build_prelude, build_all,
    Sheet.build_entry, Sheet.invalidate_cache, invalidate_cache, invalidate_loop,
    dependentsOf, eraseA, lookupA, insertA, mc_zero, mc_gZ, med_get, List.find?]

theorem s_l1_val : s_l1 =
    ⟨"0", some [.lit 0], [("x", "1")], [("x", [.lit 1])], [("x", [])], []⟩ := by
  simp [s_l1, sheet_or_default, doc_l1, Sheet.parse, Sheet.build_prelude,
    build_all, Sheet.build_entry, Sheet.invalidate_cache, invalidate_cache,
    invalidate_loop, dependentsOf, eraseA, lookupA, insertA, mc_zero, mc_one,
    med_lit, List.find?]

theorem s_l2_val : s_l2 =
    ⟨"0", some [.lit 0], [("x", "2")], [("x", [.lit 2])], [("x", [])], []⟩ := by
  simp [s_l2, sheet_or_default, doc_l2, Sheet.parse, Sheet.build_prelude,
    build_all, Sheet.build_entry, Sheet.invalidate_cache, invalidate_cache,
    invalidate_loop, dependentsOf, eraseA, lookupA, insertA, mc_zero, mc_two,
    med_lit, List.find?]

theorem eval_l2 : Sheet.eval E_mini s_l2 "x" =
    some (.ok 2,
      ⟨"0", some [.lit 0], [("x", "2")], [("x", [.lit 2])], [("x", [])],
       [("x", 2)]⟩, true) := by
  rw [s_l2_val]
  simp [Sheet.eval, check_for_cycles, check_for_cycles_inner, check_cycles_loop,
    dependenciesOf, lookupA, insertA, E_mini, miniRun]

theorem eval_l1_y : Sheet.eval E_mini s_l1 "y" =
    some (.error (.BadDependency "y"), s_l1, false) := by
  rw [s_l1_val]
  simp [Sheet.eval, check_for_cycles, check_for_cycles_inner, check_cycles_loop,
    dependenciesOf, lookupA]

theorem s_cfive_val : s_cfive =
    ⟨"0", some [.lit 0], [("C", "5")], [("C", [.lit 5])], [("C", [])], []⟩ := by
  simp [s_cfive, sheet_or_default, doc_cfive, Sheet.parse, Sheet.build_prelude,
    build_all, Sheet.build_entry, Sheet.invalidate_cache, invalidate_cache,
    invalidate_loop, dependentsOf, eraseA, lookupA, insertA, mc_zero, mc_five,
    med_lit, List.find?]

theorem s_cfive_filled_val : s_cfive_filled =
    ⟨"0", some [.lit 0], [("C", "5")], [("C", [.lit 5])], [("C", [])],
     [("C", 5)]⟩ := by
  simp [s_cfive_filled, eval_state, s_cfive_val, Sheet.eval, check_for_cycles,
    check_for_cycles_inner, check_cycles_loop, dependenciesOf, lookupA, insertA,
    E_mini, miniRun]

theorem stack_inv_broken :
    stack_invalidate_cache [s_xycyc, s_cfive_filled] "C" [] =
      ((.error (.CyclicDependency "X") : Except (SheetError Unit Unit Nat) Unit),
       [s_xycyc, s_cfive_filled]) := by
  rw [s_xycyc_val, s_cfive_filled_val]
  simp [stack_invalidate_cache, Sheet.invalidate_cache, invalidate_cache,
    invalidate_loop, dependentsOf, eraseA, lookupA]

theorem insert_xycyc_dangling : Sheet.insert_entry E_mini s_xycyc "C" "g:Z" =
    (.error (.CyclicDependency "X"),
     ⟨"0", some [.lit 0], [("C", "g:Z"), ("X", "g:C g:Y"), ("Y", "g:X")],
      [("C", [.get "Z"]), ("X", [.get "C", .get "Y"]), ("Y", [.get "X"])],
      [("C", ["Z"]), ("X", ["C", "Y"]), ("Y", ["X"])], []⟩) := by
  rw [s_xycyc_val]
  simp [Sheet.insert_entry, Sheet.build_entry, Sheet.invalidate_cache,
    invalidate_cache, invalidate_loop, dependentsOf, eraseA, lookupA, insertA,
    mc_gZ, med_get]

theorem insert_one_newkey : Sheet.insert_entry E_mini s_one "B" "g:Z" =
    (.ok (),
     ⟨"0", some [.lit 0], [("A", "1"), ("B", "g:Z")],
      [("A", [.lit 1]), ("B", [.get "Z"])],
      [("A", []), ("B", ["Z"])], []⟩) := by
  rw [s_one_val]
  simp [Sheet.insert_entry, Sheet.build_entry, Sheet.invalidate_cache,
    invalidate_cache, invalidate_loop, dependentsOf, eraseA, lookupA, insertA,
    mc_gZ, med_get]



/-! ### Claim theorems -/

theorem mem_dependentsOf (deps : List (String × List String)) (name d : String)
    (l : List String) (hmem : (d, l) ∈ deps) (hname : name ∈ l) :
    d ∈ dependentsOf deps name := by
  simp only [dependentsOf, List.mem_map]
  exact ⟨(d, l), List.mem_filter.mpr ⟨hmem, by simpa using hname⟩, rfl⟩

/-- Claim C1 (amended): if `insert_entry(name, script)` fails because the
script does not compile, the sheet is left completely unchanged; whenever
the script does compile, `entries[name]` is replaced by the new script and
the compiled form and dependency list are rebuilt from it, and the call
returns either `Ok` or a cyclic-dependency error raised by the subsequent
cache invalidation (in which case the rebuilt entry state persists). -/
theorem claim1_insert_entry_error_handling (E : Evaluator A V PE EE)
    (s : Sheet A V) (name script : String)
    (r : Except (SheetError PE EE V) Unit) (s' : Sheet A V)
    (h : Sheet.insert_entry E s name script = (r, s')) :
    (∀ e, r = .error (.BadScript e) → s' = s) ∧
    (∀ ast, E.compile script = .ok ast →
      lookupA s'.entries name = some script ∧
      lookupA s'.asts name = some ast ∧
      lookupA s'.deps name = some (E.extractDeps ast) ∧
      (r = .ok () ∨ ∃ d, r = .error (.CyclicDependency d))) := by
  cases hc : E.compile script with
  | error e0 =>
    rw [insert_entry_badscript E s name script e0 hc] at h
    simp only [Prod.mk.injEq] at h
    obtain ⟨hr, hs'⟩ := h
    constructor
    · intro e _
      exact hs'.symm
    · intro ast hast
      exact Except.noConfusion hast
  | ok ast =>
    rw [insert_entry_compiled E s name script ast hc] at h
    have hs1 : lookupA (insertA s.entries name script) name = some script :=
      lookupA_insertA_self s.entries name script
    rw [build_entry_compiled E _ name script ast hs1 hc] at h
    simp only [Prod.mk.injEq] at h
    obtain ⟨hr, hs'⟩ := h
    rcases hinv : (invalidate_cache (insertA s.deps name (E.extractDeps ast))
        name [] s.cache :
        Except (SheetError PE EE V) Unit × List (String × V)) with ⟨ri, ci⟩
    constructor
    · intro e he
      rw [← hr, hinv] at he
      simp only at he
      subst he
      obtain ⟨d, hd, _⟩ := invalidate_cache_error_cyclic _ name s.cache _ ci hinv
      exact SheetError.noConfusion hd
    · intro ast' hast'
      rw [Except.ok.injEq] at hast'
      subst hast'
      rw [← hs']
      refine ⟨hs1, lookupA_insertA_self _ _ _, lookupA_insertA_self _ _ _, ?_⟩
      rw [← hr, hinv]
      cases ri with
      | ok u => cases u; exact Or.inl rfl
      | error e =>
        obtain ⟨d, hd, _⟩ := invalidate_cache_error_cyclic _ name s.cache _ ci hinv
        exact Or.inr ⟨d, by rw [hd]⟩

/-- Claim C1 (counterexample to the original claim): on a sheet holding
the entries A = g(B), B = 1, the call `insert_entry("B", "g:A")` compiles,
then fails with a cyclic-dependency error from invalidation, yet
`entries["B"]` has been replaced by the new script. -/
theorem claim1_counterexample :
    (Sheet.insert_entry E_mini s_ab "B" "g:A").1 = .error (.CyclicDependency "B") ∧
    lookupA s_ab.entries "B" = some "1" ∧
    lookupA (Sheet.insert_entry E_mini s_ab "B" "g:A").2.entries "B" = some "g:A" := by
  refine ⟨by simp [insert_ab_result], by rw [s_ab_val]; decide, ?_⟩
  rw [insert_ab_result]
  decide

/-- Claim C1 (witness): a concrete failing compile leaves the sheet
unchanged. -/
theorem claim1_witness :
    (Sheet.insert_entry E_mini s_one "A" "?").1 = .error (.BadScript ()) ∧
    (Sheet.insert_entry E_mini s_one "A" "?").2 = s_one :=
  ⟨rfl, (claim1_insert_entry_error_handling E_mini s_one "A" "?" _ _ rfl).1 () rfl⟩

/-- Claim C2 (amended): when `insert_prelude(script)` fails, the failure is
a script-compile error, the compiled prelude used by subsequent
evaluations, the cache, and all entry state are unchanged, but the stored
prelude source has already been replaced by the failing script. -/
theorem claim2_insert_prelude_error_handling (E : Evaluator A V PE EE)
    (s : Sheet A V) (script : String) (err : SheetError PE EE V) (s' : Sheet A V)
    (h : Sheet.insert_prelude E s script = (.error err, s')) :
    s'.prelude_ast = s.prelude_ast ∧ s'.cache = s.cache ∧
    s'.entries = s.entries ∧ s'.asts = s.asts ∧ s'.deps = s.deps ∧
    s'.prelude = script ∧
    ∃ e, err = .BadScript e ∧ E.compile script = .error e := by
  unfold Sheet.insert_prelude Sheet.build_prelude at h
  cases hc : E.compile ({ s with prelude := script } : Sheet A V).prelude with
  | ok p =>
    rw [hc] at h
    exact Except.noConfusion (Prod.mk.injEq .. |>.mp h).1
  | error e =>
    rw [hc] at h
    simp only [Prod.mk.injEq, Except.error.injEq] at h
    obtain ⟨hr, hs'⟩ := h
    rw [← hs']
    exact ⟨rfl, rfl, rfl, rfl, rfl, rfl, e, hr.symm, rfl⟩

/-- Claim C2 (counterexample to the original claim): inserting the
non-compiling prelude script on a parsed sheet fails, and the stored
prelude source is the new failing script, not the prior one. -/
theorem claim2_counterexample :
    (Sheet.insert_prelude E_mini s_one "?").1 = .error (.BadScript ()) ∧
    s_one.prelude = "0" ∧
    (Sheet.insert_prelude E_mini s_one "?").2.prelude = "?" := by
  rw [s_one_val]
  refine ⟨by decide, rfl, by decide⟩

/-- Claim C2 (witness): the amended claim at a concrete failing insert. -/
theorem claim2_witness :
    (Sheet.insert_prelude E_mini s_one "?").2.prelude_ast = s_one.prelude_ast ∧
    (Sheet.insert_prelude E_mini s_one "?").2.cache = s_one.cache ∧
    (Sheet.insert_prelude E_mini s_one "?").2.prelude = "?" := by
  have h1 : Sheet.insert_prelude E_mini s_one "?"
      = (.error (.BadScript ()), (Sheet.insert_prelude E_mini s_one "?").2) := rfl
  obtain ⟨ha, hb, _, _, _, hp, _⟩ :=
    claim2_insert_prelude_error_handling E_mini s_one "?" (.BadScript ()) _ h1
  exact ⟨ha, hb, hp⟩

/-- Claim C3: whenever the dependency relation contains a cycle reachable
from `name`, `eval(name)` returns a cyclic-dependency error without
mutating the sheet or invoking the evaluator; the total well-founded
definition of the cycle check witnesses that the search cannot diverge. -/
theorem claim3_eval_cyclic (E : Evaluator A V PE EE) (s : Sheet A V)
    (name : String) (h : CycleReachableFrom s.deps name) :
    Sheet.eval E s name = some (.error (.CyclicDependency name), s, false) := by
  have hc : check_for_cycles s.deps name = true :=
    check_for_cycles_inner_complete s.deps [] name h
  unfold Sheet.eval
  rw [if_pos hc]

/-- Claim C3 (witness): on the sheet left behind by the failed insert of
B = g(A) over A = g(B), the dependency relation has the two-cycle A-B and
evaluation of A reports it. -/
theorem claim3_witness :
    CycleReachableFrom s_abcyc.deps "A" ∧
    Sheet.eval E_mini s_abcyc "A"
      = some (.error (.CyclicDependency "A"), s_abcyc, false) := by
  have hcr : CycleReachableFrom s_abcyc.deps "A" := by
    rw [s_abcyc_val]
    refine ⟨"A", "B", .refl "A", ?_, .step ?_ (.refl "A")⟩
    · show "B" ∈ dependenciesOf [("A", ["B"]), ("B", ["A"])] "A"
      decide
    · show "A" ∈ dependenciesOf [("A", ["B"]), ("B", ["A"])] "B"
      decide
  exact ⟨hcr, claim3_eval_cyclic E_mini s_abcyc "A" hcr⟩



/-- Claim C4: for a static dependency chain A depends on B depends on C,
a successful `insert_entry(C, newScript)` leaves the cached values of C, B
and A all absent, so a subsequent successful `eval(A)` or `eval(B)` cannot
take the cache branch and must re-invoke the evaluator on the current
compiled state. -/
theorem claim4_transitive_invalidation (E : Evaluator A V PE EE)
    (s s' : Sheet A V) (nA nB nC script : String) (lA lB : List String)
    (hAB : nA ≠ nB) (hBC : nB ≠ nC) (hAC : nA ≠ nC)
    (hA : lookupA s.deps nA = some lA) (hAdep : nB ∈ lA)
    (hB : lookupA s.deps nB = some lB) (hBdep : nC ∈ lB)
    (h : Sheet.insert_entry E s nC script = (.ok (), s')) :
    lookupA s'.cache nC = none ∧ lookupA s'.cache nB = none ∧
    lookupA s'.cache nA = none ∧
    (∀ v s2 b, Sheet.eval E s' nB = some (.ok v, s2, b) → b = true) ∧
    (∀ v s2 b, Sheet.eval E s' nA = some (.ok v, s2, b) → b = true) := by
  cases hc : E.compile script with
  | error e0 =>
    rw [insert_entry_badscript E s nC script e0 hc] at h
    exact Except.noConfusion (Prod.mk.injEq .. |>.mp h).1
  | ok ast =>
    rw [insert_entry_compiled E s nC script ast hc] at h
    have hs1 : lookupA (insertA s.entries nC script) nC = some script :=
      lookupA_insertA_self s.entries nC script
    rw [build_entry_compiled E _ nC script ast hs1 hc] at h
    simp only [Prod.mk.injEq] at h
    obtain ⟨hr, hs'⟩ := h
    rcases hinv : (invalidate_cache (insertA s.deps nC (E.extractDeps ast))
        nC [] s.cache :
        Except (SheetError PE EE V) Unit × List (String × V)) with ⟨ri, ci⟩
    rw [hinv] at hr
    simp only at hr
    subst hr
    have hcache : s'.cache = ci := by
      rw [← hs']
      simp [hinv]
    have hBpair : (nB, lB) ∈ insertA s.deps nC (E.extractDeps ast) :=
      mem_insertA_of_ne (lookupA_mem hB) hBC
    have hBmem : nB ∈ dependentsOf (insertA s.deps nC (E.extractDeps ast)) nC :=
      mem_dependentsOf _ nC nB lB hBpair hBdep
    have hApair : (nA, lA) ∈ insertA s.deps nC (E.extractDeps ast) :=
      mem_insertA_of_ne (lookupA_mem hA) hAC
    have hAmem : nA ∈ dependentsOf (insertA s.deps nC (E.extractDeps ast)) nB :=
      mem_dependentsOf _ nB nA lA hApair hAdep
    have hCnone : lookupA ci nC = none :=
      invalidate_cache_self_none _ nC [] s.cache _ ci hinv
    obtain ⟨hBnone, cin, cout, hcall, hrefine⟩ :=
      invalidate_cache_ok_dependents _ nC [] s.cache ci hinv nB hBmem
    obtain ⟨hAout, -⟩ :=
      invalidate_cache_ok_dependents _ nB [nC] cin cout hcall nA hAmem
    have hAnone : lookupA ci nA = none := by
      cases hl : lookupA ci nA with
      | none => rfl
      | some w =>
        have := hrefine nA w hl
        rw [hAout] at this
        exact Option.noConfusion this
    rw [hcache]
    refine ⟨hCnone, hBnone, hAnone, ?_, ?_⟩
    · intro v s2 b hev
      exact eval_miss_ok_invoked E s' nB v s2 b (by rw [hcache]; exact hBnone) hev
    · intro v s2 b hev
      exact eval_miss_ok_invoked E s' nA v s2 b (by rw [hcache]; exact hAnone) hev

/-- Claim C4 (witness): on the chain A = g(B), B = g(C), C = 1 with all
three values cached, the successful insert of C = 2 empties all three
cache slots. -/
theorem claim4_witness :
    lookupA s_chain_filled.cache "A" = some 0 ∧
    lookupA s_chain_filled.cache "B" = some 0 ∧
    lookupA s_chain_filled.cache "C" = some 1 ∧
    lookupA (Sheet.insert_entry E_mini s_chain_filled "C" "2").2.cache "C" = none ∧
    lookupA (Sheet.insert_entry E_mini s_chain_filled "C" "2").2.cache "B" = none ∧
    lookupA (Sheet.insert_entry E_mini s_chain_filled "C" "2").2.cache "A" = none := by
  have happ := claim4_transitive_invalidation E_mini s_chain_filled
    (Sheet.insert_entry E_mini s_chain_filled "C" "2").2 "A" "B" "C" "2" ["B"] ["C"]
    (by decide) (by decide) (by decide)
    (by rw [s_chain_filled_val]; decide) (by decide)
    (by rw [s_chain_filled_val]; decide) (by decide)
    (by rw [insert_chain_result])
  refine ⟨?_, ?_, ?_, happ.1, happ.2.1, happ.2.2.1⟩
  · rw [s_chain_filled_val]; decide
  · rw [s_chain_filled_val]; decide
  · rw [s_chain_filled_val]; decide

/-- Claim C5: if `eval(name)` succeeds, an immediately repeated
`eval(name)` on the resulting sheet returns the same value, changes
nothing, and does not invoke the evaluator (the cached value is
returned). -/
theorem claim5_cache_idempotent (E : Evaluator A V PE EE) (s : Sheet A V)
    (name : String) (v : V) (s' : Sheet A V) (b : Bool)
    (h : Sheet.eval E s name = some (.ok v, s', b)) :
    Sheet.eval E s' name = some (.ok v, s', false) := by
  obtain ⟨hcyc, _, _, _, _, hd, hcache⟩ := eval_ok_inv E s name v s' b h
  unfold Sheet.eval
  rw [hd, hcyc]
  simp [hcache]

/-- Claim C5 (witness): evaluating the constant twice returns 7 both
times; the first call invokes the evaluator, the second does not. -/
theorem claim5_witness :
    Sheet.eval E_mini s_basic "constant" = some (.ok 7,
      ⟨"0", some [.lit 0], [("constant", "7")], [("constant", [.lit 7])],
       [("constant", [])], [("constant", 7)]⟩, true) ∧
    Sheet.eval E_mini
      ⟨"0", some [.lit 0], [("constant", "7")], [("constant", [.lit 7])],
       [("constant", [])], [("constant", 7)]⟩ "constant"
      = some (.ok 7,
        ⟨"0", some [.lit 0], [("constant", "7")], [("constant", [.lit 7])],
         [("constant", [])], [("constant", 7)]⟩, false) :=
  ⟨eval_basic, claim5_cache_idempotent E_mini s_basic "constant" 7 _ true eval_basic⟩

/-- Claim C6: stack evaluation tries layers from highest to lowest
priority and returns the first success, leaving lower layers untouched;
when every layer fails the stack fails with a missing-dependency error.
In particular a stack with two layers defining the same name evaluates it
through the higher-priority layer. -/
theorem claim6_stack_eval (E : Evaluator A V PE EE) (name : String) :
    (∀ (lo hi : List (Sheet A V)) (m m' : Sheet A V) (v : V) (bm : Bool),
      (∀ s ∈ hi, ∃ e s2 b, Sheet.eval E s name = some (.error e, s2, b)) →
      Sheet.eval E m name = some (.ok v, m', bm) →
      stack_eval E (lo ++ m :: hi) name = some (.ok v, lo ++ m' :: hi)) ∧
    (∀ sheets : List (Sheet A V),
      (∀ s ∈ sheets, ∃ e s2 b, Sheet.eval E s name = some (.error e, s2, b)) →
      stack_eval E sheets name = some (.error (.BadDependency name), sheets)) :=
  ⟨fun lo hi m m' v bm hfail hm =>
      stack_eval_first_success E name lo hi m m' v bm hfail hm,
   fun sheets hfail => stack_eval_all_fail E name sheets hfail⟩

/-- Claim C6 (witness): the stack of layers x = 1 (low priority) and x = 2
(high priority) evaluates x to 2; a stack whose only layer does not define
y fails with a missing-dependency error for y. -/
theorem claim6_witness :
    stack_eval E_mini [s_l1, s_l2] "x" = some (.ok 2,
      [s_l1, ⟨"0", some [.lit 0], [("x", "2")], [("x", [.lit 2])], [("x", [])],
        [("x", 2)]⟩]) ∧
    stack_eval E_mini [s_l1] "y" = some (.error (.BadDependency "y"), [s_l1]) := by
  constructor
  · have h := (claim6_stack_eval E_mini "x").1 [s_l1] [] s_l2 _ 2 true
      (by intro s hs; cases hs) eval_l2
    simpa using h
  · refine (claim6_stack_eval E_mini "y").2 [s_l1] ?_
    intro s hs
    rcases List.mem_singleton.mp hs with rfl
    exact ⟨_, _, _, eval_l1_y⟩

/-- Claim C7 (amended): when a stack invalidation returns Ok, it ran the
per-sheet invalidation on every layer in order and the invalidated name is
cached in no layer; on a cyclic-dependency error in an earlier (lower)
layer the later layers are not reached, so the unconditional per-layer
guarantee of the original claim holds only for the Ok case. -/
theorem claim7_stack_invalidate (name : String) (bp : List String)
    (sheets sheets' : List (Sheet A V))
    (h : stack_invalidate_cache sheets name bp
      = ((.ok () : Except (SheetError PE EE V) Unit), sheets')) :
    List.Forall₂ (fun s s' => Sheet.invalidate_cache s name bp
      = ((.ok () : Except (SheetError PE EE V) Unit), s')) sheets sheets' ∧
    ∀ s' ∈ sheets', lookupA s'.cache name = none :=
  stack_invalidate_ok name bp sheets sheets' h

/-- Claim C7 (counterexample to the original claim): invalidating C over
the stack whose low layer contains the X-Y dependency cycle fails in that
layer, and the high layer keeps its cached value of C. -/
theorem claim7_counterexample :
    stack_invalidate_cache [s_xycyc, s_cfive_filled] "C" []
      = ((.error (.CyclicDependency "X") : Except (SheetError Unit Unit Nat) Unit),
         [s_xycyc, s_cfive_filled]) ∧
    lookupA s_cfive_filled.cache "C" = some 5 :=
  ⟨stack_inv_broken, by rw [s_cfive_filled_val]; decide⟩

/-- Claim C7 (witness): a concrete successful stack invalidation of C over
two layers, with C cached in both, runs in every layer and removes C from
both caches. -/
theorem claim7_witness :
    stack_invalidate_cache [s_cfive_filled, s_chain_filled] "C" []
      = ((.ok () : Except (SheetError Unit Unit Nat) Unit),
         [⟨"0", some [.lit 0], [("C", "5")], [("C", [.lit 5])], [("C", [])], []⟩,
          ⟨"0", some [.lit 0], [("C", "1"), ("B", "g:C"), ("A", "g:B")],
           [("C", [.lit 1]), ("B", [.get "C"]), ("A", [.get "B"])],
           [("C", []), ("B", ["C"]), ("A", ["B"])], []⟩]) ∧
    lookupA (⟨"0", some [.lit 0], [("C", "5")], [("C", [.lit 5])], [("C", [])],
      []⟩ : Sheet (List MiniTok) Nat).cache "C" = none ∧
    lookupA (⟨"0", some [.lit 0], [("C", "1"), ("B", "g:C"), ("A", "g:B")],
      [("C", [.lit 1]), ("B", [.get "C"]), ("A", [.get "B"])],
      [("C", []), ("B", ["C"]), ("A", ["B"])], []⟩ :
      Sheet (List MiniTok) Nat).cache "C" = none := by
  have h : stack_invalidate_cache [s_cfive_filled, s_chain_filled] "C" []
      = ((.ok () : Except (SheetError Unit Unit Nat) Unit),
         [⟨"0", some [.lit 0], [("C", "5")], [("C", [.lit 5])], [("C", [])], []⟩,
          ⟨"0", some [.lit 0], [("C", "1"), ("B", "g:C"), ("A", "g:B")],
           [("C", [.lit 1]), ("B", [.get "C"]), ("A", [.get "B"])],
           [("C", []), ("B", ["C"]), ("A", ["B"])], []⟩]) := by
    rw [s_cfive_filled_val, s_chain_filled_val]
    simp [stack_invalidate_cache, Sheet.invalidate_cache, invalidate_cache,
      invalidate_loop, dependentsOf, eraseA, lookupA]
  have hall := (claim7_stack_invalidate "C" [] _ _ h).2
  exact ⟨h, hall _ (by simp), hall _ (by simp)⟩

/-- Claim C8: `invalidate_cache(name, [])` always terminates (the function
is total by well-founded recursion on the visited path) and its only
failure mode is a cyclic-dependency error naming a dependent that lies on
an actual dependency cycle; otherwise it returns Ok. -/
theorem claim8_invalidate_terminates (deps : List (String × List String))
    (name : String) (cache : List (String × V)) :
    (invalidate_cache deps name [] cache :
        Except (SheetError PE EE V) Unit × List (String × V)).1 = .ok () ∨
    ∃ d c', (invalidate_cache deps name [] cache :
        Except (SheetError PE EE V) Unit × List (String × V))
      = (.error (.CyclicDependency d), c') ∧ OnPairCycle deps d := by
  rcases hres : (invalidate_cache deps name [] cache :
      Except (SheetError PE EE V) Unit × List (String × V)) with ⟨r, c'⟩
  cases r with
  | ok u =>
    cases u
    exact Or.inl rfl
  | error e =>
    obtain ⟨d, hd, hcyc⟩ := invalidate_cache_error_cyclic deps name cache e c' hres
    right
    exact ⟨d, c', by rw [hd], hcyc⟩

/-- The dependency check of `parse`: a parsed sheet has no dangling
dependency, every extracted dependency names an existing entry. -/
theorem parse_ok_no_dangling (E : Evaluator A V PE EE) (doc : SheetDoc)
    (s : Sheet A V) (h : Sheet.parse E doc = .ok s) :
    ∀ p ∈ s.deps, ∀ d ∈ p.2, ∃ src, lookupA s.entries d = some src := by
  intro p hp d hd
  unfold Sheet.parse at h
  rcases hbp : (Sheet.build_prelude E
      { prelude := doc.prelude, prelude_ast := none, entries := doc.entries,
        asts := [], deps := [], cache := [] } :
      Except (SheetError PE EE V) Unit × Sheet A V) with ⟨r1, s1⟩
  cases r1 with
  | error e =>
    simp only [hbp] at h
    exact Except.noConfusion h
  | ok u =>
    simp only [hbp] at h
    rcases hba : build_all E s1 (s1.entries.map Prod.fst) with e | s2
    · simp only [hba] at h
      exact Except.noConfusion h
    · simp only [hba] at h
      cases hfind : (s2.deps.flatMap Prod.snd).find?
          (fun d => (lookupA s2.entries d).isNone) with
      | some d0 =>
        simp only [hfind] at h
        exact Except.noConfusion h
      | none =>
        simp only [hfind, Except.ok.injEq] at h
        subst h
        have hmem : d ∈ s2.deps.flatMap Prod.snd := List.mem_flatMap.mpr ⟨p, hp, hd⟩
        have hnot := List.find?_eq_none.mp hfind d hmem
        cases hlook : lookupA s2.entries d with
        | none => rw [hlook] at hnot; simp at hnot
        | some src => exact ⟨src, rfl⟩

theorem parse_basic : Sheet.parse E_mini doc_basic =
    .ok ⟨"0", some [.lit 0], [("constant", "7")], [("constant", [.lit 7])],
         [("constant", [])], []⟩ := by
  simp [doc_basic, Sheet.parse, Sheet.build_prelude, build_all, Sheet.build_entry,
    Sheet.invalidate_cache, invalidate_cache, invalidate_loop, dependentsOf,
    eraseA, lookupA, insertA, mc_zero, mc_seven, med_lit, List.find?]

theorem parse_xy : Sheet.parse E_mini doc_xy =
    .ok ⟨"0", some [.lit 0], [("C", "1"), ("X", "g:C g:Y"), ("Y", "1")],
         [("C", [.lit 1]), ("X", [.get "C", .get "Y"]), ("Y", [.lit 1])],
         [("C", []), ("X", ["C", "Y"]), ("Y", [])], []⟩ := by
  simp [doc_xy, Sheet.parse, Sheet.build_prelude, build_all, Sheet.build_entry,
    Sheet.invalidate_cache, invalidate_cache, invalidate_loop, dependentsOf,
    eraseA, lookupA, insertA, mc_zero, mc_one, mc_gCgY, med_lit, med_getget,
    List.find?]

/-- Claim C9 (amended): a sheet as returned by `parse` (before any
mutation) serializes back to its document, so reparsing the serialization
yields the identical sheet, with identical entries, prelude and evaluation
results. -/
theorem claim9_roundtrip (E : Evaluator A V PE EE) (doc : SheetDoc)
    (s : Sheet A V) (h : Sheet.parse E doc = .ok s) :
    Sheet.serialize s = doc ∧ Sheet.parse E (Sheet.serialize s) = .ok s := by
  obtain ⟨h1, h2⟩ := parse_ok_fields E doc s h
  have hser : Sheet.serialize s = doc := by
    cases doc
    simp [Sheet.serialize, h1, h2]
  exact ⟨hser, by rw [hser]; exact h⟩

/-- Claim C9 (counterexample to the original claim): a successfully
constructed sheet mutated by one succeeding `insert_entry` (which records
the undefined dependency Z) no longer round-trips: reparsing its
serialization fails with a missing-dependency error. -/
theorem claim9_counterexample :
    (Sheet.insert_entry E_mini s_one "A" "g:Z").1 = .ok () ∧
    Sheet.parse E_mini (Sheet.serialize (Sheet.insert_entry E_mini s_one "A" "g:Z").2)
      = .error (.BadDependency "Z") := by
  constructor
  · simp [insert_one_result]
  · exact roundtrip_broken

/-- Claim C9 (witness): the amended round trip on a concrete document. -/
theorem claim9_witness :
    Sheet.serialize
        (⟨"0", some [.lit 0], [("constant", "7")], [("constant", [.lit 7])],
          [("constant", [])], []⟩ : Sheet (List MiniTok) Nat) = doc_basic ∧
    Sheet.parse E_mini (Sheet.serialize
        (⟨"0", some [.lit 0], [("constant", "7")], [("constant", [.lit 7])],
          [("constant", [])], []⟩ : Sheet (List MiniTok) Nat))
      = .ok ⟨"0", some [.lit 0], [("constant", "7")], [("constant", [.lit 7])],
             [("constant", [])], []⟩ :=
  claim9_roundtrip E_mini doc_basic _ parse_basic

theorem reachesVia_cases {r : String → String → Prop} {a b : String}
    (h : ReachesVia r a b) : a = b ∨ ∃ x, r a x := by
  cases h with
  | refl _ => exact Or.inl rfl
  | step hx _ => exact Or.inr ⟨_, hx⟩

theorem acyclic_one_dangling : AcyclicDeps [("A", []), ("B", ["Z"])] := by
  intro d hd
  obtain ⟨b, ⟨l, hmem, hbl⟩, hreach⟩ := hd
  rcases List.mem_cons.mp hmem with h | h
  · obtain ⟨rfl, rfl⟩ := Prod.mk.injEq .. |>.mp h
    cases hbl
  · rcases List.mem_cons.mp h with h2 | h2
    · obtain ⟨rfl, rfl⟩ := Prod.mk.injEq .. |>.mp h2
      rcases List.mem_singleton.mp hbl with rfl
      rcases reachesVia_cases hreach with heq | ⟨x, l2, hmem2, -⟩
      · exact absurd heq (by decide)
      · rcases List.mem_cons.mp hmem2 with h3 | h3
        · exact absurd (Prod.mk.injEq .. |>.mp h3).1 (by decide)
        · rcases List.mem_singleton.mp h3 with h4
          exact absurd (Prod.mk.injEq .. |>.mp h4).1 (by decide)
    · cases h2



/-- Claim C10 (amended): after construction, `insert_entry` performs no
missing-dependency validation: it can never fail with a missing-dependency
error; whenever the script compiles and the updated dependency map is
acyclic it returns Ok, recording the extracted dependency list for the
entry verbatim (undefined names included); `parse`, by contrast, never
yields a sheet with a dangling dependency, rejecting such documents with a
missing-dependency error. -/
theorem claim10_insert_no_dependency_check (E : Evaluator A V PE EE) :
    (∀ (s : Sheet A V) (name script d : String),
      (Sheet.insert_entry E s name script).1 ≠ .error (.BadDependency d)) ∧
    (∀ (s : Sheet A V) (name script : String) (ast : A),
      E.compile script = .ok ast →
      AcyclicDeps (insertA s.deps name (E.extractDeps ast)) →
      ∃ s', Sheet.insert_entry E s name script = (.ok (), s') ∧
        lookupA s'.deps name = some (E.extractDeps ast)) ∧
    (∀ (doc : SheetDoc) (s : Sheet A V), Sheet.parse E doc = .ok s →
      ∀ p ∈ s.deps, ∀ d ∈ p.2, ∃ src, lookupA s.entries d = some src) := by
  refine ⟨?_, ?_, parse_ok_no_dangling E⟩
  · intro s name script d
    cases hc : E.compile script with
    | error e0 =>
      rw [insert_entry_badscript E s name script e0 hc]
      intro hcontra
      simp at hcontra
    | ok ast =>
      rw [insert_entry_compiled E s name script ast hc,
        build_entry_compiled E _ name script ast
          (lookupA_insertA_self s.entries name script) hc]
      rcases hinv : (invalidate_cache (insertA s.deps name (E.extractDeps ast))
          name [] s.cache :
          Except (SheetError PE EE V) Unit × List (String × V)) with ⟨ri, ci⟩
      cases ri with
      | ok u =>
        intro hcontra
        simp at hcontra
      | error e =>
        obtain ⟨d0, hd0, -⟩ :=
          invalidate_cache_error_cyclic _ name s.cache e ci hinv
        intro hcontra
        simp only [Except.error.injEq] at hcontra
        rw [hd0] at hcontra
        exact SheetError.noConfusion hcontra
  · intro s name script ast hc hacyc
    rw [insert_entry_compiled E s name script ast hc,
      build_entry_compiled E _ name script ast
        (lookupA_insertA_self s.entries name script) hc]
    rcases hinv : (invalidate_cache (insertA s.deps name (E.extractDeps ast))
        name [] s.cache :
        Except (SheetError PE EE V) Unit × List (String × V)) with ⟨ri, ci⟩
    cases ri with
    | error e =>
      obtain ⟨d0, -, hcyc⟩ :=
        invalidate_cache_error_cyclic _ name s.cache e ci hinv
      exact absurd hcyc (hacyc d0)
    | ok u =>
      cases u
      exact ⟨_, rfl, lookupA_insertA_self _ _ _⟩

/-- Claim C10 (counterexample to the original claim): on the sheet whose
dependency map holds the X-Y cycle, inserting the compiling script
`g:Z` (whose lookup target Z no entry defines) does not return Ok: the
invalidation traversal reports a cyclic-dependency error. -/
theorem claim10_counterexample :
    E_mini.compile "g:Z" = .ok [.get "Z"] ∧
    lookupA s_xycyc.entries "Z" = none ∧
    (Sheet.insert_entry E_mini s_xycyc "C" "g:Z").1
      = .error (.CyclicDependency "X") := by
  refine ⟨mc_gZ, ?_, ?_⟩
  · rw [s_xycyc_val]
    decide
  · simp [insert_xycyc_dangling]

/-- Claim C10 (witness): inserting the script `g:Z` with undefined target
Z into the one-entry sheet succeeds and records Z in the dependency list,
never raising a missing-dependency error; and the parsed sheet `s_xy` has
an existing entry behind each of its recorded dependencies. -/
theorem claim10_witness :
    (Sheet.insert_entry E_mini s_one "B" "g:Z").1 ≠ .error (.BadDependency "Q") ∧
    (∃ s', Sheet.insert_entry E_mini s_one "B" "g:Z" = (.ok (), s') ∧
      lookupA s'.deps "B" = some ["Z"]) ∧
    (∃ src, lookupA
      (⟨"0", some [.lit 0], [("C", "1"), ("X", "g:C g:Y"), ("Y", "1")],
        [("C", [.lit 1]), ("X", [.get "C", .get "Y"]), ("Y", [.lit 1])],
        [("C", []), ("X", ["C", "Y"]), ("Y", [])], []⟩ :
        Sheet (List MiniTok) Nat).entries "C" = some src) := by
  refine ⟨(claim10_insert_no_dependency_check E_mini).1 s_one "B" "g:Z" "Q", ?_, ?_⟩
  · have hacyc : AcyclicDeps (insertA s_one.deps "B" (E_mini.extractDeps [.get "Z"])) := by
      rw [s_one_val, med_get]
      exact acyclic_one_dangling
    have h := (claim10_insert_no_dependency_check E_mini).2.1 s_one "B" "g:Z"
      [.get "Z"] mc_gZ hacyc
    simpa [med_get] using h
  · exact (claim10_insert_no_dependency_check E_mini).2.2 doc_xy _ parse_xy
      ("X", ["C", "Y"]) (by decide) "C" (by decide)


end Gamesheet
